import Mathlib

/-!
Verification of the GENIE profiler subsystem
(`src/include/profiler.h`, `src/src/profiler.cpp`).

The C++ code is shallowly embedded as follows.

* `std::chrono::steady_clock` instants and `double` second counts are
  modelled as exact rationals (`ℚ`); each call to `start`/`stop` receives
  the clock reading `now` explicitly, mirroring the
  `steady_clock::now()` calls at the top of the C++ functions.
* `uint64_t` counters (`calls`, `total_bytes`) are modelled as `ℕ`;
  the program increments them one by one, so 64-bit wrap-around is
  unreachable in any realistic execution and is not modelled.
* `std::unordered_map` is modelled as an association list with unique
  keys; `operator[]` (default-construct on miss) becomes
  lookup-with-default plus store.
* The `thread_local` map `thread_timers_` becomes a function from a
  thread id (`ℕ`) to that thread's private association list.
* The mutex makes each critical section of `stop` / `add_bytes` /
  `entries` / `clear` atomic; concurrency is modelled by interleaving
  those atomic actions (see the trace semantics further below).
* File and stream output is modelled by returning the would-be file
  content and the diagnostic lines instead of performing I/O.
-/

set_option autoImplicit false

/-- `struct ProfileEntry` from `profiler.h`: aggregated statistics of one
named region. -/
structure ProfileEntry where
  name : String
  calls : ℕ
  total_seconds : ℚ
  total_bytes : ℕ
deriving DecidableEq

/-- The default constructor `ProfileEntry() : calls(0), total_seconds(0.0),
total_bytes(0)` (the `name` member is default-constructed empty). -/
def ProfileEntry.init : ProfileEntry := ⟨"", 0, 0, 0⟩

/-- `struct TimerState` from `profiler.h`: per-thread start instant and
active flag for one region name. -/
structure TimerState where
  start_time : ℚ
  active : Bool
deriving DecidableEq

/-- Lookup in an association list, modelling `unordered_map::find`. -/
def alookup {α : Type} : List (String × α) → String → Option α
  | [], _ => none
  | (k', v) :: r, k => if k' = k then some v else alookup r k

/-- Store under a key in an association list: replace the existing binding
or append a fresh one, modelling assignment through `unordered_map`
`operator[]`. -/
def aset {α : Type} : List (String × α) → String → α → List (String × α)
  | [], k, v => [(k, v)]
  | (k', v') :: r, k, v =>
    if k' = k then (k, v) :: r else (k', v') :: aset r k v

/-- The shared map `entries_ : unordered_map<string, ProfileEntry>`. -/
abbrev Registry := List (String × ProfileEntry)

/-- One thread's `thread_timers_` map. -/
abbrev TimerMap := List (String × TimerState)

/-- The entry currently stored for `k`, or a default-constructed one —
exactly what the C++ expression `entries_[key]` denotes before it is
updated. -/
def entryOf (r : Registry) (k : String) : ProfileEntry :=
  (alookup r k).getD ProfileEntry.init

/-- The locked critical section of `Profiler::stop`
(`profiler.cpp` lines 35–41): `auto& entry = entries_[key];
entry.name = key; entry.calls++; entry.total_seconds += elapsed;`. -/
def mergeStop (r : Registry) (k : String) (elapsed : ℚ) : Registry :=
  let e := entryOf r k
  aset r k { e with name := k, calls := e.calls + 1,
                    total_seconds := e.total_seconds + elapsed }

/-- The locked critical section of `Profiler::add_bytes`
(`profiler.cpp` lines 46–49): `auto& entry = entries_[key];
entry.name = key; entry.total_bytes += bytes;`. -/
def mergeBytes (r : Registry) (k : String) (bytes : ℕ) : Registry :=
  let e := entryOf r k
  aset r k { e with name := k, total_bytes := e.total_bytes + bytes }

/-- The profiler singleton's state: the shared registry `entries_`
(guarded by `mutex_`) together with every thread's `thread_local`
`thread_timers_` map, keyed by thread id. -/
structure ProfilerState where
  entries_ : Registry
  thread_timers_ : ℕ → TimerMap

/-- The freshly initialised singleton: empty registry, and every thread's
timer map empty (thread-local maps are default-constructed). -/
def initState : ProfilerState := ⟨[], fun _ => []⟩

/-- `Profiler::start` (`profiler.cpp` lines 13–18), executed by thread
`tid` when the clock reads `now`: upsert the thread's own timer for
`name` with `start_time = now, active = true`. -/
def Profiler.start (s : ProfilerState) (tid : ℕ) (name : String)
    (now : ℚ) : ProfilerState :=
  { s with thread_timers_ := fun t =>
      if t = tid then aset (s.thread_timers_ tid) name ⟨now, true⟩
      else s.thread_timers_ t }

/-- `Profiler::stop` (`profiler.cpp` lines 20–42), executed by thread
`tid` when the clock reads `now`: if the thread has no timer for `name`,
or it is inactive, return unchanged; otherwise deactivate the timer and
merge `elapsed = now - start_time` into the shared registry under the
lock. -/
def Profiler.stop (s : ProfilerState) (tid : ℕ) (name : String)
    (now : ℚ) : ProfilerState :=
  match alookup (s.thread_timers_ tid) name with
  | none => s
  | some ts =>
    if ts.active then
      { entries_ := mergeStop s.entries_ name (now - ts.start_time),
        thread_timers_ := fun t =>
          if t = tid then
            aset (s.thread_timers_ tid) name ⟨ts.start_time, false⟩
          else s.thread_timers_ t }
    else s

/-- `Profiler::add_bytes` (`profiler.cpp` lines 44–50). -/
def Profiler.add_bytes (s : ProfilerState) (name : String)
    (bytes : ℕ) : ProfilerState :=
  { s with entries_ := mergeBytes s.entries_ name bytes }

/-- `Profiler::clear` (`profiler.cpp` lines 70–73): `entries_.clear()`
under the lock; the thread-local timer maps are untouched. -/
def Profiler.clear (s : ProfilerState) : ProfilerState :=
  { s with entries_ := [] }

/-- The comparator passed to `std::sort` in `Profiler::entries`
(`profiler.cpp` lines 62–65): `a.total_seconds > b.total_seconds`,
turned into the "may precede" test used by merge sort. -/
def entriesLe (a b : ProfileEntry) : Bool :=
  decide (b.total_seconds ≤ a.total_seconds)

/-- `Profiler::entries` (`profiler.cpp` lines 52–68): copy all stored
values out of the map and sort the copy by `total_seconds` descending. -/
def Profiler.entries (s : ProfilerState) : List ProfileEntry :=
  (s.entries_.map Prod.snd).mergeSort entriesLe

/-- `Profiler::entries` as a state transformer: the method is
`const`-qualified and only reads the registry under the lock, so it
returns the snapshot together with the unchanged state. -/
def Profiler.entriesOp (s : ProfilerState) :
    List ProfileEntry × ProfilerState :=
  (Profiler.entries s, s)

/-- Calls recorded for region `k` (0 when no entry exists yet). -/
def callsOf (s : ProfilerState) (k : String) : ℕ := (entryOf s.entries_ k).calls

/-- Seconds recorded for region `k` (0 when no entry exists yet). -/
def secondsOf (s : ProfilerState) (k : String) : ℚ :=
  (entryOf s.entries_ k).total_seconds

/-- Bytes recorded for region `k` (0 when no entry exists yet). -/
def bytesOf (s : ProfilerState) (k : String) : ℕ :=
  (entryOf s.entries_ k).total_bytes

/-! ### Association-list lemmas -/

theorem alookup_aset_self {α : Type} (m : List (String × α)) (k : String)
    (v : α) : alookup (aset m k v) k = some v := by
  induction m with
  | nil => simp [aset, alookup]
  | cons p r ih =>
    obtain ⟨k', v'⟩ := p
    by_cases h : k' = k
    · simp [aset, alookup, h]
    · simp [aset, alookup, h, ih]

theorem alookup_aset_ne {α : Type} (m : List (String × α)) (k k' : String)
    (v : α) (h : k ≠ k') : alookup (aset m k v) k' = alookup m k' := by
  induction m with
  | nil => simp [aset, alookup, h]
  | cons p r ih =>
    obtain ⟨k₀, v₀⟩ := p
    by_cases h₀ : k₀ = k
    · subst h₀
      simp [aset, alookup, h]
    · simp [aset, alookup, h₀, ih]

theorem entryOf_mergeStop_self (r : Registry) (k : String) (e : ℚ) :
    alookup (mergeStop r k e) k =
      some { name := k, calls := (entryOf r k).calls + 1,
             total_seconds := (entryOf r k).total_seconds + e,
             total_bytes := (entryOf r k).total_bytes } := by
  simp [mergeStop, alookup_aset_self]

theorem alookup_mergeStop_ne (r : Registry) (k k' : String) (e : ℚ)
    (h : k ≠ k') : alookup (mergeStop r k e) k' = alookup r k' := by
  simp [mergeStop, alookup_aset_ne _ _ _ _ h]

theorem entryOf_mergeBytes_self (r : Registry) (k : String) (b : ℕ) :
    alookup (mergeBytes r k b) k =
      some { name := k, calls := (entryOf r k).calls,
             total_seconds := (entryOf r k).total_seconds,
             total_bytes := (entryOf r k).total_bytes + b } := by
  simp [mergeBytes, alookup_aset_self]

/-! ### start/stop interaction -/

theorem start_entries_eq (s : ProfilerState) (tid : ℕ) (nm : String)
    (t0 : ℚ) : (Profiler.start s tid nm t0).entries_ = s.entries_ := rfl

theorem start_timer_self (s : ProfilerState) (tid : ℕ) (nm : String)
    (t0 : ℚ) :
    alookup ((Profiler.start s tid nm t0).thread_timers_ tid) nm
      = some ⟨t0, true⟩ := by
  simp [Profiler.start, alookup_aset_self]

/-- The registry effect of `stop` on an active timer: exactly one locked
merge of the elapsed duration. -/
theorem stop_entries_of_active (s : ProfilerState) (tid : ℕ) (nm : String)
    (ts : TimerState) (t1 : ℚ)
    (hlk : alookup (s.thread_timers_ tid) nm = some ts)
    (hact : ts.active = true) :
    (Profiler.stop s tid nm t1).entries_
      = mergeStop s.entries_ nm (t1 - ts.start_time) := by
  simp [Profiler.stop, hlk, hact]

/-- A `start`/`stop` pair on one thread performs exactly one merge of
`t1 - t0` into the shared registry. -/
theorem stop_start_entries (s : ProfilerState) (tid : ℕ) (nm : String)
    (t0 t1 : ℚ) :
    (Profiler.stop (Profiler.start s tid nm t0) tid nm t1).entries_
      = mergeStop s.entries_ nm (t1 - t0) := by
  have h := start_timer_self s tid nm t0
  simpa [start_entries_eq] using
    stop_entries_of_active (Profiler.start s tid nm t0) tid nm ⟨t0, true⟩ t1 h rfl

theorem callsOf_stop_start (s : ProfilerState) (tid : ℕ) (nm : String)
    (t0 t1 : ℚ) :
    callsOf (Profiler.stop (Profiler.start s tid nm t0) tid nm t1) nm
      = callsOf s nm + 1 := by
  simp [callsOf, entryOf, stop_start_entries, entryOf_mergeStop_self]

theorem secondsOf_stop_start (s : ProfilerState) (tid : ℕ) (nm : String)
    (t0 t1 : ℚ) :
    secondsOf (Profiler.stop (Profiler.start s tid nm t0) tid nm t1) nm
      = secondsOf s nm + (t1 - t0) := by
  simp [secondsOf, entryOf, stop_start_entries, entryOf_mergeStop_self]

/-- `N` sequential `start`/`stop` cycles on region `nm`, executed by
thread `tid`; the `n`-th cycle starts at time `(τ n).1` and stops at
`(τ n).2`. -/
def cycles (nm : String) (tid : ℕ) (τ : ℕ → ℚ × ℚ) :
    ℕ → ProfilerState → ProfilerState
  | 0, s => s
  | n + 1, s =>
    Profiler.stop (Profiler.start (cycles nm tid τ n s) tid nm (τ n).1)
      tid nm (τ n).2

theorem callsOf_cycles (nm : String) (tid : ℕ) (τ : ℕ → ℚ × ℚ) (N : ℕ)
    (s : ProfilerState) :
    callsOf (cycles nm tid τ N s) nm = callsOf s nm + N := by
  induction N with
  | zero => simp [cycles]
  | succ n ih =>
    simp [cycles, callsOf_stop_start, ih]
    omega

/-- C1: a matched `start`/`stop` on one thread increments the region's
`calls` by exactly 1 and adds the elapsed duration `t1 - t0` to its
`total_seconds`; starting from the fresh profiler, `N` sequential
cycles yield `calls = N`. -/
theorem claim_C1 (s : ProfilerState) (tid : ℕ) (nm : String) (t0 t1 : ℚ)
    (N : ℕ) (τ : ℕ → ℚ × ℚ) :
    callsOf (Profiler.stop (Profiler.start s tid nm t0) tid nm t1) nm
        = callsOf s nm + 1
  ∧ secondsOf (Profiler.stop (Profiler.start s tid nm t0) tid nm t1) nm
        = secondsOf s nm + (t1 - t0)
  ∧ callsOf (cycles nm tid τ N initState) nm = N := by
  refine ⟨callsOf_stop_start s tid nm t0 t1,
          secondsOf_stop_start s tid nm t0 t1, ?_⟩
  have h := callsOf_cycles nm tid τ N initState
  simpa [initState, callsOf, entryOf, alookup, ProfileEntry.init] using h

/-- C3: `stop` with no active timer for the name on the calling thread
(never started, or already stopped) is a silent no-op: the entire
profiler state — registry included — is returned unchanged. -/
theorem claim_C3 (s : ProfilerState) (tid : ℕ) (nm : String) (t1 : ℚ)
    (h : alookup (s.thread_timers_ tid) nm = none ∨
         ∃ ts, alookup (s.thread_timers_ tid) nm = some ts ∧
               ts.active = false) :
    Profiler.stop s tid nm t1 = s := by
  rcases h with h | ⟨ts, hlk, hact⟩
  · simp [Profiler.stop, h]
  · simp [Profiler.stop, hlk, hact]

/-- Witness for C3: stopping a never-started region on the fresh
profiler changes nothing. -/
theorem claim_C3_witness : Profiler.stop initState 0 "x" 0 = initState :=
  claim_C3 initState 0 "x" 0 (Or.inl rfl)

/-- C5: `add_bytes nm b` adds exactly `b` to the region's `total_bytes`
and leaves its `calls` and `total_seconds` unchanged; on a name with no
prior entry it creates `{name := nm, calls := 0, total_seconds := 0,
total_bytes := b}`. -/
theorem claim_C5 (s : ProfilerState) (nm : String) (b : ℕ) :
    bytesOf (Profiler.add_bytes s nm b) nm = bytesOf s nm + b
  ∧ callsOf (Profiler.add_bytes s nm b) nm = callsOf s nm
  ∧ secondsOf (Profiler.add_bytes s nm b) nm = secondsOf s nm
  ∧ (alookup s.entries_ nm = none →
      alookup (Profiler.add_bytes s nm b).entries_ nm
        = some ⟨nm, 0, 0, b⟩) := by
  refine ⟨?_, ?_, ?_, ?_⟩
  · simp [bytesOf, entryOf, Profiler.add_bytes, entryOf_mergeBytes_self]
  · simp [callsOf, entryOf, Profiler.add_bytes, entryOf_mergeBytes_self]
  · simp [secondsOf, entryOf, Profiler.add_bytes, entryOf_mergeBytes_self]
  · intro h
    simp [Profiler.add_bytes, entryOf_mergeBytes_self, entryOf, h,
          ProfileEntry.init]

/-- Witness for C5: `add_bytes "x" 7` on the fresh profiler creates the
entry `⟨"x", 0, 0, 7⟩`. -/
theorem claim_C5_witness :
    alookup (Profiler.add_bytes initState "x" 7).entries_ "x"
      = some ⟨"x", 0, 0, 7⟩ :=
  (claim_C5 initState "x" 7).2.2.2 rfl

/-- C10: `clear` empties the shared registry (so `entries` returns `[]`)
but leaves every thread-local timer map untouched; a timer still active
across the `clear` recreates, on its `stop`, a fresh entry with
`calls = 1` and only the time elapsed since its own start. -/
theorem claim_C10 (s : ProfilerState) (tid : ℕ) (nm : String)
    (ts : TimerState) (t1 : ℚ)
    (hlk : alookup (s.thread_timers_ tid) nm = some ts)
    (hact : ts.active = true) :
    (Profiler.clear s).entries_ = []
  ∧ Profiler.entries (Profiler.clear s) = []
  ∧ (Profiler.clear s).thread_timers_ = s.thread_timers_
  ∧ alookup (Profiler.stop (Profiler.clear s) tid nm t1).entries_ nm
      = some ⟨nm, 1, t1 - ts.start_time, 0⟩ := by
  refine ⟨rfl, by simp [Profiler.entries, Profiler.clear], rfl, ?_⟩
  have hlk' : alookup ((Profiler.clear s).thread_timers_ tid) nm = some ts := hlk
  have h := stop_entries_of_active (Profiler.clear s) tid nm ts t1 hlk' hact
  rw [h]
  simp [Profiler.clear, entryOf_mergeStop_self, entryOf, alookup,
        ProfileEntry.init]

/-- Witness for C10: a profiler with a live timer for `"r"` started at
time 0; after `clear`, stopping it at time 1 creates a fresh entry with
one call. -/
theorem claim_C10_witness :
    alookup (Profiler.stop
        (Profiler.clear ⟨[("old", ⟨"old", 3, 9, 0⟩)],
          fun _ => [("r", ⟨0, true⟩)]⟩) 0 "r" 1).entries_ "r"
      = some ⟨"r", 1, 1 - 0, 0⟩ :=
  (claim_C10 ⟨[("old", ⟨"old", 3, 9, 0⟩)], fun _ => [("r", ⟨0, true⟩)]⟩
    0 "r" ⟨0, true⟩ 1 rfl rfl).2.2.2

/-! ### The snapshot (`entries`) -/

theorem entriesLe_trans (a b c : ProfileEntry) (h₁ : entriesLe a b = true)
    (h₂ : entriesLe b c = true) : entriesLe a c = true := by
  simp only [entriesLe, decide_eq_true_eq] at *
  exact le_trans h₂ h₁

theorem entriesLe_total (a b : ProfileEntry) :
    (entriesLe a b || entriesLe b a) = true := by
  simp only [entriesLe, Bool.or_eq_true, decide_eq_true_eq]
  exact le_total _ _

/-- The registry that holds entries with `total_seconds` 1.0, 5.0 and 3.0
(the example used by the specification). -/
def exampleRegistry : Registry :=
  [("a", ⟨"a", 1, 1, 0⟩), ("b", ⟨"b", 1, 5, 0⟩), ("c", ⟨"c", 1, 3, 0⟩)]

/-- C4: `entries` returns the stored `ProfileEntry` values sorted by
`total_seconds` in descending order — the returned list is a
permutation of the registry's values and every later element has a
`total_seconds` no larger than any earlier one — while the registry
itself is left unchanged; entries with totals 1.0, 5.0, 3.0 come back
ordered 5.0, 3.0, 1.0. -/
theorem claim_C4 (s : ProfilerState) :
    List.Sorted (fun a b : ProfileEntry =>
        b.total_seconds ≤ a.total_seconds) (Profiler.entries s)
  ∧ (Profiler.entries s).Perm (s.entries_.map Prod.snd)
  ∧ (Profiler.entriesOp s).2 = s
  ∧ Profiler.entries ⟨exampleRegistry, fun _ => []⟩
      = [⟨"b", 1, 5, 0⟩, ⟨"c", 1, 3, 0⟩, ⟨"a", 1, 1, 0⟩] := by
  refine ⟨?_, List.mergeSort_perm _ _, rfl, ?_⟩
  · have h := @List.sorted_mergeSort ProfileEntry entriesLe
      entriesLe_trans entriesLe_total (s.entries_.map Prod.snd)
    exact h.imp (fun hab => by
      simpa [entriesLe, decide_eq_true_eq] using hab)
  · show (exampleRegistry.map Prod.snd).mergeSort entriesLe = _
    rw [show exampleRegistry.map Prod.snd
        = [⟨"a", 1, 1, 0⟩, ⟨"b", 1, 5, 0⟩, ⟨"c", 1, 3, 0⟩] from rfl]
    rw [List.mergeSort]
    norm_num [List.splitInTwo, List.mergeSort, List.merge, entriesLe]

/-! ### Interleaved executions

The mutex in `profiler.cpp` makes the registry update inside `stop`
atomic, and `start` touches only the calling thread's `thread_local`
map, so a concurrent execution is an arbitrary interleaving of the
per-thread `start`/`stop` calls, each applied atomically. -/

/-- One profiler call on the region under test: `start` or `stop`,
tagged with the `steady_clock` reading that call observes. -/
inductive Act where
  | astart (t : ℚ)
  | astop (t : ℚ)
deriving DecidableEq

/-- Execute one action, issued by thread `tid`, on region `nm`. -/
def runAct (nm : String) (s : ProfilerState) : ℕ × Act → ProfilerState
  | (tid, .astart t) => Profiler.start s tid nm t
  | (tid, .astop t) => Profiler.stop s tid nm t

/-- Execute a whole interleaved schedule of thread-tagged actions. -/
def runTrace (nm : String) : ProfilerState → List (ℕ × Act) → ProfilerState
  | s, [] => s
  | s, ev :: tr => runTrace nm (runAct nm s ev) tr

/-- The subsequence of a schedule executed by thread `t` (its program
order). -/
def projAt (t : ℕ) (tr : List (ℕ × Act)) : List Act :=
  (tr.filter (fun ev => decide (ev.1 = t))).map Prod.snd

/-- How many successful (`active` timer found) stops thread-local
execution of `acts` performs, starting from timer state `ots`. -/
def threadStops : Option TimerState → List Act → ℕ
  | _, [] => 0
  | _, .astart t :: rest => threadStops (some ⟨t, true⟩) rest
  | none, .astop _ :: rest => threadStops none rest
  | some ts, .astop _ :: rest =>
    if ts.active then 1 + threadStops (some ⟨ts.start_time, false⟩) rest
    else threadStops (some ts) rest

/-- The total elapsed duration the successful stops in `acts` merge into
the registry, starting from timer state `ots`. -/
def threadSecs : Option TimerState → List Act → ℚ
  | _, [] => 0
  | _, .astart t :: rest => threadSecs (some ⟨t, true⟩) rest
  | none, .astop _ :: rest => threadSecs none rest
  | some ts, .astop t :: rest =>
    if ts.active then
      (t - ts.start_time) + threadSecs (some ⟨ts.start_time, false⟩) rest
    else threadSecs (some ts) rest

/-- The program of one thread doing `C` start/stop cycles on the region:
cycle `j` starts at `(τ j).1` and stops at `(τ j).2`. -/
def prog (τ : ℕ → ℚ × ℚ) : ℕ → List Act
  | 0 => []
  | C + 1 => .astart (τ 0).1 :: .astop (τ 0).2 ::
      prog (fun j => τ (j + 1)) C

theorem start_timers_ne (s : ProfilerState) (tid t : ℕ) (nm : String)
    (t0 : ℚ) (h : t ≠ tid) :
    (Profiler.start s tid nm t0).thread_timers_ t = s.thread_timers_ t := by
  simp [Profiler.start, h]

theorem stop_timers_ne (s : ProfilerState) (tid t : ℕ) (nm : String)
    (t1 : ℚ) (h : t ≠ tid) :
    (Profiler.stop s tid nm t1).thread_timers_ t = s.thread_timers_ t := by
  unfold Profiler.stop
  cases alookup (s.thread_timers_ tid) nm with
  | none => rfl
  | some ts =>
    by_cases hact : ts.active <;> simp [hact, h]

theorem stop_timer_self_of_active (s : ProfilerState) (tid : ℕ)
    (nm : String) (ts : TimerState) (t1 : ℚ)
    (hlk : alookup (s.thread_timers_ tid) nm = some ts)
    (hact : ts.active = true) :
    alookup ((Profiler.stop s tid nm t1).thread_timers_ tid) nm
      = some ⟨ts.start_time, false⟩ := by
  simp [Profiler.stop, hlk, hact, alookup_aset_self]

theorem stop_of_none (s : ProfilerState) (tid : ℕ) (nm : String) (t1 : ℚ)
    (h : alookup (s.thread_timers_ tid) nm = none) :
    Profiler.stop s tid nm t1 = s := by
  simp [Profiler.stop, h]

theorem stop_of_inactive (s : ProfilerState) (tid : ℕ) (nm : String)
    (ts : TimerState) (t1 : ℚ)
    (hlk : alookup (s.thread_timers_ tid) nm = some ts)
    (hact : ts.active = false) :
    Profiler.stop s tid nm t1 = s := by
  simp [Profiler.stop, hlk, hact]

theorem projAt_cons (t tid : ℕ) (a : Act) (tr : List (ℕ × Act)) :
    projAt t ((tid, a) :: tr)
      = if tid = t then a :: projAt t tr else projAt t tr := by
  by_cases h : tid = t <;> simp [projAt, List.filter, h]

/-- Summing a function over a duplicate-free list after changing its
value at one member: the sum changes by exactly the difference added
there. -/
theorem map_sum_add_at {M : Type} [AddCommMonoid M] :
    ∀ (Ts : List ℕ), Ts.Nodup → ∀ tid : ℕ, tid ∈ Ts →
    ∀ (F G : ℕ → M) (d : M), (∀ t, t ≠ tid → G t = F t) →
    G tid = d + F tid → (Ts.map G).sum = d + (Ts.map F).sum := by
  intro Ts
  induction Ts with
  | nil => intro _ tid htid; simp at htid
  | cons t Ts ih =>
    intro hnd tid htid F G d hne heq
    rcases List.mem_cons.mp htid with rfl | htid'
    · have hrest : Ts.map G = Ts.map F :=
        List.map_congr_left (fun x hx => hne x (fun hxx => by
          subst hxx; exact (List.nodup_cons.mp hnd).1 hx))
      simp [heq, hrest, add_assoc]
    · have hhead : t ≠ tid := by
        rintro rfl; exact (List.nodup_cons.mp hnd).1 htid'
      have hih := ih (List.nodup_cons.mp hnd).2 tid htid' F G d hne heq
      simp only [List.map_cons, List.sum_cons, hne t hhead, hih,
        add_left_comm]

/-- Effect of an arbitrary interleaved schedule on the region's shared
entry: the registry records exactly the successful stops of each
thread's own subsequence. `Ts` enumerates (without duplicates) every
thread id that appears in the schedule. -/
theorem runTrace_effect (nm : String) (Ts : List ℕ) (hnd : Ts.Nodup) :
    ∀ (tr : List (ℕ × Act)) (s : ProfilerState),
      (∀ ev ∈ tr, ev.1 ∈ Ts) →
      callsOf (runTrace nm s tr) nm
        = callsOf s nm
          + (Ts.map (fun t =>
              threadStops (alookup (s.thread_timers_ t) nm)
                (projAt t tr))).sum
    ∧ secondsOf (runTrace nm s tr) nm
        = secondsOf s nm
          + (Ts.map (fun t =>
              threadSecs (alookup (s.thread_timers_ t) nm)
                (projAt t tr))).sum := by
  intro tr
  induction tr with
  | nil =>
    intro s _
    constructor
    · simp [runTrace, projAt, threadStops]
    · simp [runTrace, projAt, threadSecs]
  | cons ev tr ih =>
    obtain ⟨tid, a⟩ := ev
    intro s hin
    have hin' : ∀ e ∈ tr, e.1 ∈ Ts := fun e he =>
      hin e (List.mem_cons_of_mem _ he)
    have htid : tid ∈ Ts := hin (tid, a) (List.mem_cons_self _ _)
    cases a with
    | astart t0 =>
      obtain ⟨ih1, ih2⟩ := ih (Profiler.start s tid nm t0) hin'
      have hrun : runTrace nm s ((tid, Act.astart t0) :: tr)
          = runTrace nm (Profiler.start s tid nm t0) tr := rfl
      have hmapS : Ts.map (fun t =>
            threadStops (alookup (s.thread_timers_ t) nm)
              (projAt t ((tid, Act.astart t0) :: tr)))
          = Ts.map (fun t =>
            threadStops
              (alookup ((Profiler.start s tid nm t0).thread_timers_ t) nm)
              (projAt t tr)) := by
        refine List.map_congr_left (fun t _ => ?_)
        by_cases h : t = tid
        · subst h
          rw [projAt_cons, if_pos rfl, start_timer_self]
          simp [threadStops]
        · rw [projAt_cons, if_neg (fun hh => h hh.symm),
            start_timers_ne s tid t nm t0 h]
      have hmapT : Ts.map (fun t =>
            threadSecs (alookup (s.thread_timers_ t) nm)
              (projAt t ((tid, Act.astart t0) :: tr)))
          = Ts.map (fun t =>
            threadSecs
              (alookup ((Profiler.start s tid nm t0).thread_timers_ t) nm)
              (projAt t tr)) := by
        refine List.map_congr_left (fun t _ => ?_)
        by_cases h : t = tid
        · subst h
          rw [projAt_cons, if_pos rfl, start_timer_self]
          simp [threadSecs]
        · rw [projAt_cons, if_neg (fun hh => h hh.symm),
            start_timers_ne s tid t nm t0 h]
      constructor
      · rw [hrun, ih1, hmapS]; rfl
      · rw [hrun, ih2, hmapT]; rfl
    | astop t0 =>
      cases hlk : alookup (s.thread_timers_ tid) nm with
      | none =>
        obtain ⟨ih1, ih2⟩ := ih s hin'
        have hrun : runTrace nm s ((tid, Act.astop t0) :: tr)
            = runTrace nm s tr := by
          show runTrace nm (Profiler.stop s tid nm t0) tr = _
          rw [stop_of_none s tid nm t0 hlk]
        have hmap : ∀ (D : Option TimerState → List Act → ℕ)
            (hD : ∀ rest, D none (Act.astop t0 :: rest) = D none rest),
            Ts.map (fun t => D (alookup (s.thread_timers_ t) nm)
              (projAt t ((tid, Act.astop t0) :: tr)))
            = Ts.map (fun t => D (alookup (s.thread_timers_ t) nm)
              (projAt t tr)) := by
          intro D hD
          refine List.map_congr_left (fun t _ => ?_)
          by_cases h : t = tid
          · subst h
            rw [projAt_cons, if_pos rfl, hlk, hD]
          · rw [projAt_cons, if_neg (fun hh => h hh.symm)]
        constructor
        · rw [hrun, ih1, hmap threadStops (fun rest => by simp [threadStops])]
        · -- same congruence, for the rational-valued accumulator
          have hmap' : Ts.map (fun t =>
                threadSecs (alookup (s.thread_timers_ t) nm)
                  (projAt t ((tid, Act.astop t0) :: tr)))
              = Ts.map (fun t =>
                threadSecs (alookup (s.thread_timers_ t) nm)
                  (projAt t tr)) := by
            refine List.map_congr_left (fun t _ => ?_)
            by_cases h : t = tid
            · subst h
              rw [projAt_cons, if_pos rfl, hlk]
              simp [threadSecs]
            · rw [projAt_cons, if_neg (fun hh => h hh.symm)]
          rw [hrun, ih2, hmap']
      | some ts =>
        cases hact : ts.active with
        | false =>
          obtain ⟨ih1, ih2⟩ := ih s hin'
          have hrun : runTrace nm s ((tid, Act.astop t0) :: tr)
              = runTrace nm s tr := by
            show runTrace nm (Profiler.stop s tid nm t0) tr = _
            rw [stop_of_inactive s tid nm ts t0 hlk hact]
          have hmapS : Ts.map (fun t =>
                threadStops (alookup (s.thread_timers_ t) nm)
                  (projAt t ((tid, Act.astop t0) :: tr)))
              = Ts.map (fun t =>
                threadStops (alookup (s.thread_timers_ t) nm)
                  (projAt t tr)) := by
            refine List.map_congr_left (fun t _ => ?_)
            by_cases h : t = tid
            · subst h
              rw [projAt_cons, if_pos rfl, hlk]
              simp [threadStops, hact]
            · rw [projAt_cons, if_neg (fun hh => h hh.symm)]
          have hmapT : Ts.map (fun t =>
                threadSecs (alookup (s.thread_timers_ t) nm)
                  (projAt t ((tid, Act.astop t0) :: tr)))
              = Ts.map (fun t =>
                threadSecs (alookup (s.thread_timers_ t) nm)
                  (projAt t tr)) := by
            refine List.map_congr_left (fun t _ => ?_)
            by_cases h : t = tid
            · subst h
              rw [projAt_cons, if_pos rfl, hlk]
              simp [threadSecs, hact]
            · rw [projAt_cons, if_neg (fun hh => h hh.symm)]
          exact ⟨by rw [hrun, ih1, hmapS], by rw [hrun, ih2, hmapT]⟩
        | true =>
          obtain ⟨ih1, ih2⟩ := ih (Profiler.stop s tid nm t0) hin'
          have hrun : runTrace nm s ((tid, Act.astop t0) :: tr)
              = runTrace nm (Profiler.stop s tid nm t0) tr := rfl
          have hcalls : callsOf (Profiler.stop s tid nm t0) nm
              = callsOf s nm + 1 := by
            simp [callsOf, entryOf,
              stop_entries_of_active s tid nm ts t0 hlk hact,
              entryOf_mergeStop_self]
          have hsecs : secondsOf (Profiler.stop s tid nm t0) nm
              = secondsOf s nm + (t0 - ts.start_time) := by
            simp [secondsOf, entryOf,
              stop_entries_of_active s tid nm ts t0 hlk hact,
              entryOf_mergeStop_self]
          have hsumS : (Ts.map (fun t =>
                threadStops (alookup (s.thread_timers_ t) nm)
                  (projAt t ((tid, Act.astop t0) :: tr)))).sum
              = 1 + (Ts.map (fun t =>
                threadStops
                  (alookup ((Profiler.stop s tid nm t0).thread_timers_ t) nm)
                  (projAt t tr))).sum := by
            refine map_sum_add_at Ts hnd tid htid _ _ 1 ?_ ?_
            · intro t h
              rw [projAt_cons, if_neg (fun hh => h hh.symm),
                stop_timers_ne s tid t nm t0 h]
            · rw [projAt_cons, if_pos rfl, hlk,
                stop_timer_self_of_active s tid nm ts t0 hlk hact]
              simp [threadStops, hact]
          have hsumT : (Ts.map (fun t =>
                threadSecs (alookup (s.thread_timers_ t) nm)
                  (projAt t ((tid, Act.astop t0) :: tr)))).sum
              = (t0 - ts.start_time) + (Ts.map (fun t =>
                threadSecs
                  (alookup ((Profiler.stop s tid nm t0).thread_timers_ t) nm)
                  (projAt t tr))).sum := by
            refine map_sum_add_at Ts hnd tid htid _ _ (t0 - ts.start_time) ?_ ?_
            · intro t h
              rw [projAt_cons, if_neg (fun hh => h hh.symm),
                stop_timers_ne s tid t nm t0 h]
            · rw [projAt_cons, if_pos rfl, hlk,
                stop_timer_self_of_active s tid nm ts t0 hlk hact]
              simp [threadSecs, hact]
          constructor
          · rw [hrun, ih1, hcalls, hsumS]
            omega
          · rw [hrun, ih2, hsecs, hsumT]
            ring

theorem threadStops_prog :
    ∀ (C : ℕ) (ots : Option TimerState) (τ : ℕ → ℚ × ℚ),
      threadStops ots (prog τ C) = C := by
  intro C
  induction C with
  | zero => intro ots τ; simp [prog, threadStops]
  | succ C ih =>
    intro ots τ
    show threadStops ots
      (Act.astart (τ 0).1 :: Act.astop (τ 0).2 ::
        prog (fun j => τ (j + 1)) C) = C + 1
    simp [threadStops, ih]
    omega

theorem threadSecs_prog :
    ∀ (C : ℕ) (ots : Option TimerState) (τ : ℕ → ℚ × ℚ),
      threadSecs ots (prog τ C)
        = ∑ j ∈ Finset.range C, ((τ j).2 - (τ j).1) := by
  intro C
  induction C with
  | zero => intro ots τ; simp [prog, threadSecs]
  | succ C ih =>
    intro ots τ
    show threadSecs ots
      (Act.astart (τ 0).1 :: Act.astop (τ 0).2 ::
        prog (fun j => τ (j + 1)) C)
      = ∑ j ∈ Finset.range (C + 1), ((τ j).2 - (τ j).1)
    rw [Finset.sum_range_succ']
    simp [threadSecs, ih]
    ring

theorem list_range_map_sum {M : Type} [AddCommMonoid M] (n : ℕ)
    (f : ℕ → M) :
    ((List.range n).map f).sum = ∑ i ∈ Finset.range n, f i := by
  induction n with
  | zero => simp
  | succ n ih => rw [List.range_succ]; simp [ih, Finset.sum_range_succ]

/-- C2: for any interleaved schedule in which each of `T` threads
performs, in its own program order, `C` start/stop cycles on the same
region (`τ t j` giving the clock readings of thread `t`'s cycle `j`),
the final shared entry shows `calls = T*C` and `total_seconds` equal to
the sum of all `T*C` individual elapsed durations — no update is lost,
each stop acting as one atomic locked increment. -/
theorem claim_C2 (T C : ℕ) (nm : String) (τ : ℕ → ℕ → ℚ × ℚ)
    (tr : List (ℕ × Act))
    (hin : ∀ ev ∈ tr, ev.1 < T)
    (hproj : ∀ t, t < T → projAt t tr = prog (τ t) C) :
    callsOf (runTrace nm initState tr) nm = T * C
  ∧ secondsOf (runTrace nm initState tr) nm
      = ∑ t ∈ Finset.range T, ∑ j ∈ Finset.range C,
          ((τ t j).2 - (τ t j).1) := by
  obtain ⟨h1, h2⟩ := runTrace_effect nm (List.range T)
    (List.nodup_range T) tr initState
    (fun ev hev => List.mem_range.mpr (hin ev hev))
  constructor
  · rw [h1]
    have hc : List.map (fun t =>
          threadStops (alookup (initState.thread_timers_ t) nm)
            (projAt t tr)) (List.range T)
        = List.map (fun _ => C) (List.range T) :=
      List.map_congr_left (fun t ht => by
        rw [hproj t (List.mem_range.mp ht)]
        exact threadStops_prog C _ (τ t))
    rw [hc]
    simp [callsOf, initState, entryOf, alookup, ProfileEntry.init,
      List.sum_replicate, smul_eq_mul]
  · rw [h2]
    have hc : List.map (fun t =>
          threadSecs (alookup (initState.thread_timers_ t) nm)
            (projAt t tr)) (List.range T)
        = List.map (fun t => ∑ j ∈ Finset.range C,
            ((τ t j).2 - (τ t j).1)) (List.range T) :=
      List.map_congr_left (fun t ht => by
        rw [hproj t (List.mem_range.mp ht)]
        exact threadSecs_prog C _ (τ t))
    rw [hc, list_range_map_sum]
    simp [secondsOf, initState, entryOf, alookup, ProfileEntry.init]

/-- Witness for C2: two threads, one cycle each (both running from time
0 to time 1), through a genuinely interleaved schedule: both threads
start before either stops. -/
theorem claim_C2_witness :
    callsOf (runTrace "r" initState
      [(0, Act.astart 0), (1, Act.astart 0),
       (0, Act.astop 1), (1, Act.astop 1)]) "r" = 2 * 1 :=
  (claim_C2 2 1 "r" (fun _ _ => (0, 1))
    [(0, Act.astart 0), (1, Act.astart 0),
     (0, Act.astop 1), (1, Act.astop 1)]
    (by decide) (by decide)).1

/-! ### The reporter (`dump_profile`)

Numbers: `out << entry.calls` prints a `uint64_t` in decimal;
`out << std::fixed << std::setprecision(6) << x` prints a `double` as a
fixed-point decimal with exactly six fractional digits.  In the
real-valued abstraction the latter is the value rounded to six decimal
places (half away from zero) and zero-padded to six fractional
digits. -/

/-- Most-significant-first decimal digits of `n` (empty for 0);
`fuel`-bounded division loop. -/
def natCharsAux : ℕ → ℕ → List Char
  | 0, _ => []
  | fuel + 1, n =>
    if n = 0 then []
    else natCharsAux fuel (n / 10) ++ [Nat.digitChar (n % 10)]

/-- Decimal rendering of a natural number, as the C++ stream insertion
of an unsigned integer produces it. -/
def natChars (n : ℕ) : List Char :=
  if n = 0 then ['0'] else natCharsAux (n + 1) n

def natStr (n : ℕ) : String := String.mk (natChars n)

/-- The six fractional digits: `m < 10^6` zero-padded to width 6. -/
def fracPad (m : ℕ) : List Char :=
  List.replicate (6 - (natChars m).length) '0' ++ natChars m

/-- `std::fixed << std::setprecision(6)` rendering of the rational `q`:
sign, integer part, `'.'`, six fractional digits, where
`N = round(|q| * 10^6)` (half away from zero). -/
def fmt6Chars (q : ℚ) : List Char :=
  let N : ℕ := (2 * q.num.natAbs * 1000000 + q.den) / (2 * q.den)
  (if q.num < 0 then ['-'] else [])
    ++ natChars (N / 1000000) ++ '.' :: fracPad (N % 1000000)

def fmt6 (q : ℚ) : String := String.mk (fmt6Chars q)

/-- `(entry.calls > 0) ? (entry.total_seconds / entry.calls) : 0.0`
(`profiler.cpp` line 114). -/
def csvAvg (e : ProfileEntry) : ℚ :=
  if 0 < e.calls then e.total_seconds / (e.calls : ℚ) else 0

/-- One CSV data row (`profiler.cpp` lines 115–119). -/
def csvRowChars (e : ProfileEntry) : List Char :=
  e.name.data ++ ',' :: natChars e.calls
    ++ ',' :: fmt6Chars e.total_seconds
    ++ ',' :: fmt6Chars (csvAvg e)
    ++ ',' :: natChars e.total_bytes ++ ['\n']

def csvRows : List ProfileEntry → List Char
  | [] => []
  | e :: es => csvRowChars e ++ csvRows es

/-- The CSV serialization: header line then one row per entry
(`profiler.cpp` lines 112–120). -/
def csvChars (es : List ProfileEntry) : List Char :=
  "name,calls,total_seconds,avg_seconds,total_bytes\n".data ++ csvRows es

def csvText (es : List ProfileEntry) : String := String.mk (csvChars es)

/-- One JSON element (`profiler.cpp` lines 96–103): the `total_bytes`
member is emitted only when `entry.total_bytes > 0`. -/
def jsonEntryChars (e : ProfileEntry) : List Char :=
  "  \x7b\n    \"name\": \"".data ++ e.name.data
    ++ "\",\n    \"calls\": ".data ++ natChars e.calls
    ++ ",\n    \"total_seconds\": ".data ++ fmt6Chars e.total_seconds
    ++ (if 0 < e.total_bytes
        then ",\n    \"total_bytes\": ".data ++ natChars e.total_bytes
        else [])
    ++ "\n  \x7d".data

/-- The loop body's separators (`profiler.cpp` lines 104–107): a comma
after every element except the last, then a newline. -/
def jsonItems : List ProfileEntry → List Char
  | [] => []
  | [e] => jsonEntryChars e ++ ['\n']
  | e :: es => jsonEntryChars e ++ ',' :: '\n' :: jsonItems es

/-- The JSON serialization (`profiler.cpp` lines 93–109). -/
def jsonChars (es : List ProfileEntry) : List Char :=
  '[' :: '\n' :: jsonItems es ++ [']', '\n']

def jsonText (es : List ProfileEntry) : String := String.mk (jsonChars es)

/-- `filename.size() >= 5 && filename.substr(filename.size() - 5) ==
".json"` (`profiler.cpp` line 88). -/
def is_json (f : String) : Bool :=
  decide (5 ≤ f.data.length)
    && decide (f.data.drop (f.data.length - 5) = ".json".data)

/-- `filename.size() >= 4 && filename.substr(filename.size() - 4) ==
".csv"` (`profiler.cpp` line 89; computed by the source but the format
choice only tests `is_json`). -/
def is_csv (f : String) : Bool :=
  decide (4 ≤ f.data.length)
    && decide (f.data.drop (f.data.length - 4) = ".csv".data)

/-- The observable outcome of `dump_profile`: the file content written
(if any), the `std::cerr` diagnostics, and the `std::cout` lines. -/
structure DumpResult where
  written : Option String
  errLines : List String
  outLines : List String
deriving DecidableEq

/-- `dump_profile` (`profiler.cpp` lines 75–125).  `canOpen` models
whether `std::ofstream out(filename)` succeeds.  The function is total:
no branch aborts or throws. -/
def dump_profile (entries : List ProfileEntry) (filename : String)
    (canOpen : Bool) : DumpResult :=
  if entries.isEmpty then
    ⟨none, ["Warning: No profiling data collected"], []⟩
  else if canOpen = false then
    ⟨none, ["Error: Could not open profile output file: " ++ filename], []⟩
  else if is_json filename then
    ⟨some (jsonText entries), [],
     ["Profiling data written to: " ++ filename]⟩
  else
    ⟨some (csvText entries), [],
     ["Profiling data written to: " ++ filename]⟩

/-! ### The compiled-out stub

With `GENIE_PROFILE` undefined (`profiler.h` lines 92–115) every member
function has an empty body and `dump_profile` is an empty inline
function; as state transformers over an arbitrary ambient program state
`W` they are the identity and produce no output. -/

def stub_start {W : Type} (w : W) (_nm : String) : W := w

def stub_stop {W : Type} (w : W) (_nm : String) : W := w

def stub_add_bytes {W : Type} (w : W) (_nm : String) (_b : ℕ) : W := w

def stub_clear {W : Type} (w : W) : W := w

/-- `entries()` of the stub: `return std::vector<ProfileEntry>();`. -/
def stub_entries : List ProfileEntry := []

/-- The stub `ScopedTimer`: constructor and (implicit) destructor both
have empty bodies. -/
def stub_scoped_timer {W : Type} (w : W) (_nm : String) : W := w

/-- The stub `dump_profile`: writes no file, prints nothing. -/
def stub_dump_profile {W : Type} (w : W) (_es : List ProfileEntry)
    (_f : String) : W × DumpResult := (w, ⟨none, [], []⟩)

/-- C8: with instrumentation compiled out, every operation is a no-op:
it leaves any ambient program state unchanged, `entries()` always
returns the empty sequence, and `dump` writes no file and prints
nothing.  (That the stubs accept the same arguments as the real
operations is visible in their types.) -/
theorem claim_C8 {W : Type} (w : W) (nm : String) (b : ℕ)
    (es : List ProfileEntry) (f : String) :
    stub_start w nm = w
  ∧ stub_stop w nm = w
  ∧ stub_add_bytes w nm b = w
  ∧ stub_clear w = w
  ∧ stub_scoped_timer w nm = w
  ∧ stub_entries = ([] : List ProfileEntry)
  ∧ stub_dump_profile w es f = (w, ⟨none, [], []⟩) :=
  ⟨rfl, rfl, rfl, rfl, rfl, rfl, rfl⟩

/-- C9: `dump_profile` is a total function (it never aborts or
propagates a failure); on an empty entry list it writes no file and
emits exactly the warning diagnostic, and on an unopenable output path
it writes no file and emits exactly the error diagnostic. -/
theorem claim_C9 (es : List ProfileEntry) (f : String) (canOpen : Bool) :
    (es = [] → dump_profile es f canOpen
        = ⟨none, ["Warning: No profiling data collected"], []⟩)
  ∧ (es ≠ [] → canOpen = false → dump_profile es f canOpen
        = ⟨none, ["Error: Could not open profile output file: " ++ f],
           []⟩) := by
  constructor
  · rintro rfl
    rfl
  · intro hne hco
    subst hco
    cases es with
    | nil => exact absurd rfl hne
    | cons e es => rfl

/-- Witness for C9: an empty dump warns and writes nothing; an
unopenable path reports the error and writes nothing. -/
theorem claim_C9_witness :
    dump_profile [] "out.csv" true
      = ⟨none, ["Warning: No profiling data collected"], []⟩
  ∧ dump_profile [⟨"x", 1, 0, 0⟩] "out.csv" false
      = ⟨none, ["Error: Could not open profile output file: " ++ "out.csv"],
         []⟩ :=
  ⟨(claim_C9 [] "out.csv" true).1 rfl,
   (claim_C9 [⟨"x", 1, 0, 0⟩] "out.csv" false).2
     (List.cons_ne_nil _ _) rfl⟩

/-! ### Format dispatch and the CSV contract -/

/-- The extension test of the source is exactly "the path ends in
`.json`". -/
theorem is_json_iff (f : String) :
    is_json f = true ↔ ∃ p : String, f = p ++ ".json" := by
  obtain ⟨l⟩ := f
  constructor
  · intro h
    simp only [is_json, Bool.and_eq_true, decide_eq_true_eq] at h
    obtain ⟨hlen, hdrop⟩ := h
    refine ⟨String.mk (l.take (l.length - 5)), ?_⟩
    have hsplit : l = l.take (l.length - 5) ++ l.drop (l.length - 5) :=
      (List.take_append_drop _ l).symm
    show String.mk l = String.mk (l.take (l.length - 5) ++ ".json".data)
    rw [show (".json".data : List Char) = List.drop (l.length - 5) l from
      by rw [hdrop]]
    exact congrArg String.mk hsplit
  · rintro ⟨⟨lp⟩, hf⟩
    have hl : l = lp ++ ".json".data := congrArg String.data hf
    subst hl
    simp only [is_json, Bool.and_eq_true, decide_eq_true_eq]
    constructor
    · simp
    · have hlen : (lp ++ ".json".data).length - 5 = lp.length := by
        simp
      rw [hlen]
      exact List.drop_left lp _

/-- The CSV row exactly as §4.4/§6 of the specification word it:
`name,calls,total_seconds,avg_seconds,total_bytes`, with
`avg_seconds = total_seconds / calls` when `calls > 0` and `0`
otherwise, seconds fields with six decimal digits. -/
def csvRowSpec (e : ProfileEntry) : List Char :=
  e.name.data ++ ",".data ++ natChars e.calls ++ ",".data
    ++ fmt6Chars e.total_seconds ++ ",".data
    ++ fmt6Chars (if 0 < e.calls then e.total_seconds / (e.calls : ℚ) else 0)
    ++ ",".data ++ natChars e.total_bytes ++ "\n".data

theorem csvRows_eq_flatten (es : List ProfileEntry) :
    csvRows es = (es.map csvRowSpec).flatten := by
  induction es with
  | nil => rfl
  | cons e es ih =>
    simp only [csvRows, List.map_cons, List.flatten_cons, ih]
    simp [csvRowChars, csvRowSpec, csvAvg]

/-- C7: the output format is selected solely by the path's suffix —
`is_json` holds exactly when the path ends in `.json`, in which case
the JSON serialization is written, and in every other case the CSV
serialization is written: the header line followed by one row per
entry in order, with `avg_seconds = total_seconds / calls` when
`calls > 0` and `0` otherwise (`calls = 4`, `total = 2.0` gives
`avg = 0.5`). -/
theorem claim_C7 (es : List ProfileEntry) (f : String) (h : es ≠ []) :
    (is_json f = true ↔ ∃ p : String, f = p ++ ".json")
  ∧ (is_json f = true →
      (dump_profile es f true).written = some (jsonText es))
  ∧ (is_json f = false →
      (dump_profile es f true).written = some (csvText es))
  ∧ csvChars es
      = "name,calls,total_seconds,avg_seconds,total_bytes\n".data
          ++ (es.map csvRowSpec).flatten
  ∧ csvAvg ⟨"x", 4, 2, 0⟩ = 1 / 2
  ∧ csvAvg ⟨"y", 0, 2, 0⟩ = 0 := by
  refine ⟨is_json_iff f, ?_, ?_, ?_, ?_, ?_⟩
  · intro hj
    cases es with
    | nil => exact absurd rfl h
    | cons e es' => simp [dump_profile, hj]
  · intro hj
    cases es with
    | nil => exact absurd rfl h
    | cons e es' => simp [dump_profile, hj]
  · rw [csvChars, csvRows_eq_flatten]
  · norm_num [csvAvg]
  · norm_num [csvAvg]

/-- Witness for C7: the same entry list dumped to `out.json` yields the
JSON serialization, and to `out.dat` (neither `.json` nor `.csv`)
yields the CSV serialization. -/
theorem claim_C7_witness :
    (dump_profile [⟨"x", 4, 2, 0⟩] "out.json" true).written
      = some (jsonText [⟨"x", 4, 2, 0⟩])
  ∧ (dump_profile [⟨"x", 4, 2, 0⟩] "out.dat" true).written
      = some (csvText [⟨"x", 4, 2, 0⟩]) :=
  ⟨(claim_C7 [⟨"x", 4, 2, 0⟩] "out.json" (List.cons_ne_nil _ _)).2.1
      (by decide),
   (claim_C7 [⟨"x", 4, 2, 0⟩] "out.dat" (List.cons_ne_nil _ _)).2.2.1
      (by decide)⟩

/-! ### A JSON grammar (for the validity contract of the JSON output)

The specification promises that the `.json` output is a syntactically
valid JSON document of a documented shape.  To state that, we give a
standalone JSON value type and a complete recursive-descent
reader of the ECMA-404 grammar (objects, arrays, strings with all
escapes, numbers, literals, whitespace).  Number tokens are kept as
their raw text; string escapes are decoded. -/

inductive JVal where
  | jnull
  | jbool (b : Bool)
  | jnum (tok : String)
  | jstr (s : String)
  | jarr (elems : List JVal)
  | jobj (members : List (String × JVal))

/-- JSON whitespace: space, tab, line feed, carriage return. -/
def wsChar (c : Char) : Bool :=
  decide (c = ' ' ∨ c = '\t' ∨ c = '\n' ∨ c = '\r')

def skipWs : List Char → List Char
  | [] => []
  | c :: l => if wsChar c then skipWs l else c :: l

def isDigitCh (c : Char) : Bool :=
  decide (48 ≤ c.toNat) && decide (c.toNat ≤ 57)

def hexDigitCh (c : Char) : Bool :=
  (decide (48 ≤ c.toNat) && decide (c.toNat ≤ 57))
    || (decide (97 ≤ c.toNat) && decide (c.toNat ≤ 102))
    || (decide (65 ≤ c.toNat) && decide (c.toNat ≤ 70))

def hexVal (c : Char) : ℕ :=
  if c.toNat ≤ 57 then c.toNat - 48
  else if c.toNat ≤ 70 then c.toNat - 55
  else c.toNat - 87

/-- The two-character escapes of the JSON string grammar. -/
def escChar (e : Char) : Option Char :=
  if e = '"' then some '"'
  else if e = '\\' then some '\\'
  else if e = '/' then some '/'
  else if e = 'b' then some (Char.ofNat 8)
  else if e = 'f' then some (Char.ofNat 12)
  else if e = 'n' then some '\n'
  else if e = 'r' then some (Char.ofNat 13)
  else if e = 't' then some '\t'
  else none

/-- Read a JSON string body (after the opening quote) up to and past the
closing quote, decoding escapes; raw control characters, a lone
backslash, or a missing closing quote reject the input. -/
def scanStr : List Char → Option (List Char × List Char)
  | [] => none
  | c :: rest =>
    if c = '"' then some ([], rest)
    else if c = '\\' then
      match rest with
      | [] => none
      | e :: rest₂ =>
        if e = 'u' then
          match rest₂ with
          | a :: b :: c₂ :: d :: rest₃ =>
            if hexDigitCh a && hexDigitCh b && hexDigitCh c₂
                && hexDigitCh d then
              (scanStr rest₃).map (fun pr =>
                (Char.ofNat ((((hexVal a * 16 + hexVal b) * 16
                  + hexVal c₂) * 16 + hexVal d)) :: pr.1, pr.2))
            else none
          | _ => none
        else
          match escChar e with
          | some ec => (scanStr rest₂).map (fun pr => (ec :: pr.1, pr.2))
          | none => none
    else if c.toNat < 32 then none
    else (scanStr rest).map (fun pr => (c :: pr.1, pr.2))

/-- Exponent part of a JSON number (optional); on success returns the
full raw token assembled from the parts scanned so far. -/
def scanExp (sgn intPart fracPart : List Char) :
    List Char → Option (List Char × List Char)
  | e :: r =>
    if e = 'e' ∨ e = 'E' then
      match r with
      | s :: r₂ =>
        if s = '+' ∨ s = '-' then
          match List.span isDigitCh r₂ with
          | (ds, r₃) =>
            if ds.isEmpty then none
            else some (sgn ++ intPart ++ fracPart ++ e :: s :: ds, r₃)
        else
          match List.span isDigitCh r with
          | (ds, r₃) =>
            if ds.isEmpty then none
            else some (sgn ++ intPart ++ fracPart ++ e :: ds, r₃)
      | [] => none
    else some (sgn ++ intPart ++ fracPart, e :: r)
  | [] => some (sgn ++ intPart ++ fracPart, [])

/-- Fraction part of a JSON number (optional `.` followed by one or
more digits). -/
def scanFrac (sgn intPart : List Char) :
    List Char → Option (List Char × List Char)
  | c :: r =>
    if c = '.' then
      match List.span isDigitCh r with
      | (ds, r₁) =>
        if ds.isEmpty then none else scanExp sgn intPart ('.' :: ds) r₁
    else scanExp sgn intPart [] (c :: r)
  | [] => scanExp sgn intPart [] []

/-- Integer part of the number grammar: `0` alone, or `[1-9][0-9]*`. -/
def scanNumBody (sgn : List Char) (l : List Char) :
    Option (List Char × List Char) :=
  match l with
  | c :: r =>
    if c = '0' then scanFrac sgn ['0'] r
    else if isDigitCh c then
      match List.span isDigitCh r with
      | (ds, r₁) => scanFrac sgn (c :: ds) r₁
    else none
  | [] => none

/-- A JSON number token: optional minus, then `0` or a nonzero digit
followed by digits, then optional fraction and exponent. -/
def scanNum : List Char → Option (List Char × List Char)
  | c :: l =>
    if c = '-' then scanNumBody ['-'] l else scanNumBody [] (c :: l)
  | [] => none

mutual

/-- Read one JSON value (leading whitespace allowed). -/
def parseVal : ℕ → List Char → Option (JVal × List Char)
  | 0, _ => none
  | fuel + 1, l =>
    match skipWs l with
    | [] => none
    | c :: rest =>
      if c = '"' then
        (scanStr rest).map (fun pr => (JVal.jstr (String.mk pr.1), pr.2))
      else if c = '[' then
        match skipWs rest with
        | ']' :: r => some (JVal.jarr [], r)
        | l₂ => (parseElems fuel l₂).map (fun pr => (JVal.jarr pr.1, pr.2))
      else if c = '\x7b' then
        match skipWs rest with
        | '\x7d' :: r => some (JVal.jobj [], r)
        | l₂ =>
          (parseMembers fuel l₂).map (fun pr => (JVal.jobj pr.1, pr.2))
      else if c = 't' then
        match rest with
        | 'r' :: 'u' :: 'e' :: r => some (JVal.jbool true, r)
        | _ => none
      else if c = 'f' then
        match rest with
        | 'a' :: 'l' :: 's' :: 'e' :: r => some (JVal.jbool false, r)
        | _ => none
      else if c = 'n' then
        match rest with
        | 'u' :: 'l' :: 'l' :: r => some (JVal.jnull, r)
        | _ => none
      else
        (scanNum (c :: rest)).map (fun pr =>
          (JVal.jnum (String.mk pr.1), pr.2))

/-- Read the elements of a non-empty array, up to and past `]`. -/
def parseElems : ℕ → List Char → Option (List JVal × List Char)
  | 0, _ => none
  | fuel + 1, l =>
    match parseVal fuel l with
    | none => none
    | some (v, r) =>
      match skipWs r with
      | ',' :: r₂ =>
        (parseElems fuel r₂).map (fun pr => (v :: pr.1, pr.2))
      | ']' :: r₂ => some ([v], r₂)
      | _ => none

/-- Read the members of a non-empty object, up to and past the closing
brace. -/
def parseMembers : ℕ → List Char → Option (List (String × JVal) × List Char)
  | 0, _ => none
  | fuel + 1, l =>
    match skipWs l with
    | '"' :: r =>
      match scanStr r with
      | none => none
      | some (k, r₁) =>
        match skipWs r₁ with
        | ':' :: r₂ =>
          match parseVal fuel r₂ with
          | none => none
          | some (v, r₃) =>
            match skipWs r₃ with
            | ',' :: r₄ =>
              (parseMembers fuel r₄).map (fun pr =>
                ((String.mk k, v) :: pr.1, pr.2))
            | '\x7d' :: r₄ => some ([(String.mk k, v)], r₄)
            | _ => none
        | _ => none
    | _ => none

end

/-- Parse a whole document: one value, then only whitespace to the end
of input. -/
def parseJson (s : String) : Option JVal :=
  match parseVal (s.data.length + 1) s.data with
  | some (v, r) => if skipWs r = [] then some v else none
  | none => none

/-- A character the JSON writer may emit verbatim inside a string
literal: not a quote, not a backslash, not a control character.  The
C++ writer (`profiler.cpp` line 97) streams `entry.name` into the
quoted position without any escaping, so names outside this class
corrupt the output. -/
def jsonSafeChar (c : Char) : Bool :=
  decide (c ≠ '"') && decide (c ≠ '\\') && decide (32 ≤ c.toNat)

def jsonSafe (s : String) : Bool := s.data.all jsonSafeChar

/-- The JSON value the documented shape prescribes for one entry:
an object with `name` (string), `calls` (integer), `total_seconds`
(six-decimal fixed-point number), and `total_bytes` (integer) present
exactly when nonzero. -/
def entryAst (e : ProfileEntry) : JVal :=
  JVal.jobj ([("name", JVal.jstr e.name),
              ("calls", JVal.jnum (natStr e.calls)),
              ("total_seconds", JVal.jnum (fmt6 e.total_seconds))]
    ++ if 0 < e.total_bytes
       then [("total_bytes", JVal.jnum (natStr e.total_bytes))]
       else [])

/-- The member names of a JSON object. -/
def objKeys : JVal → List String
  | JVal.jobj ms => ms.map Prod.fst
  | _ => []

/-- Counterexample to C6 as stated: for the entry named `a"b` the
`.json` dump succeeds and writes its serialization, but that
serialization is not syntactically valid JSON (the name is embedded
unescaped, so the document does not parse). -/
theorem claim_C6_counterexample :
    dump_profile [⟨"a\"b", 1, 0, 0⟩] "out.json" true
      = ⟨some (jsonText [⟨"a\"b", 1, 0, 0⟩]), [],
         ["Profiling data written to: out.json"]⟩
  ∧ parseJson (jsonText [⟨"a\"b", 1, 0, 0⟩]) = none :=
  ⟨rfl, rfl⟩

/-! ### Digit strings -/

theorem natCharsAux_zero (fuel : ℕ) : natCharsAux fuel 0 = [] := by
  cases fuel <;> simp [natCharsAux]

theorem digitChar_isDigit (d : ℕ) (h : d < 10) :
    isDigitCh (Nat.digitChar d) = true := by
  interval_cases d <;> decide

theorem digitChar_ne_zero (d : ℕ) (h1 : d < 10) (h2 : d ≠ 0) :
    Nat.digitChar d ≠ '0' := by
  interval_cases d
  · exact absurd rfl h2
  all_goals decide

/-- For positive `n` within fuel, the digit loop produces a nonzero
leading digit followed by digits. -/
theorem natCharsAux_spec : ∀ fuel n, 0 < n → n ≤ fuel →
    ∃ c cs, natCharsAux fuel n = c :: cs ∧ isDigitCh c = true ∧ c ≠ '0'
      ∧ ∀ x ∈ cs, isDigitCh x = true := by
  intro fuel
  induction fuel with
  | zero => intro n h1 h2; omega
  | succ fuel ih =>
    intro n h1 h2
    rw [show natCharsAux (fuel + 1) n
        = if n = 0 then []
          else natCharsAux fuel (n / 10) ++ [Nat.digitChar (n % 10)]
      from rfl]
    rw [if_neg (by omega)]
    by_cases h10 : n < 10
    · have hdiv : n / 10 = 0 := Nat.div_eq_of_lt h10
      have hmod : n % 10 = n := Nat.mod_eq_of_lt h10
      rw [hdiv, natCharsAux_zero]
      refine ⟨Nat.digitChar (n % 10), [], rfl, ?_, ?_, by simp⟩
      · exact digitChar_isDigit _ (Nat.mod_lt _ (by omega))
      · rw [hmod]; exact digitChar_ne_zero _ h10 (by omega)
    · have h1' : 0 < n / 10 := Nat.div_pos (by omega) (by omega)
      have hlt := Nat.div_lt_self (show 0 < n by omega)
        (show 1 < 10 by omega)
      obtain ⟨c, cs, heq, hd, hz, hall⟩ := ih (n / 10) h1' (by omega)
      refine ⟨c, cs ++ [Nat.digitChar (n % 10)], ?_, hd, hz, ?_⟩
      · rw [heq]; rfl
      · intro x hx
        rcases List.mem_append.mp hx with hx | hx
        · exact hall x hx
        · have : x = Nat.digitChar (n % 10) := by simpa using hx
          subst this
          exact digitChar_isDigit _ (Nat.mod_lt _ (by omega))

theorem natChars_digits (n : ℕ) :
    ∀ x ∈ natChars n, isDigitCh x = true := by
  by_cases h : n = 0
  · subst h; intro x hx; simp [natChars] at hx; subst hx; decide
  · intro x hx
    rw [natChars, if_neg h] at hx
    obtain ⟨c, cs, heq, hd, _, hall⟩ :=
      natCharsAux_spec (n + 1) n (by omega) (by omega)
    rw [heq] at hx
    rcases List.mem_cons.mp hx with rfl | hx
    · exact hd
    · exact hall x hx

theorem natCharsAux_length : ∀ fuel n k, n ≤ fuel → n < 10 ^ k →
    (natCharsAux fuel n).length ≤ k := by
  intro fuel
  induction fuel with
  | zero => intro n k _ _; simp [natCharsAux]
  | succ fuel ih =>
    intro n k h1 h2
    by_cases h : n = 0
    · subst h; simp [natCharsAux_zero]
    · rw [show natCharsAux (fuel + 1) n
          = if n = 0 then []
            else natCharsAux fuel (n / 10) ++ [Nat.digitChar (n % 10)]
        from rfl, if_neg h]
      cases k with
      | zero => simp at h2; omega
      | succ k =>
        have hdiv : n / 10 < 10 ^ k := by
          rw [Nat.div_lt_iff_lt_mul (by omega : 0 < 10)]
          calc n < 10 ^ (k + 1) := h2
            _ = 10 ^ k * 10 := by ring
        have hlt := Nat.div_lt_self (show 0 < n by omega)
          (show 1 < 10 by omega)
        have := ih (n / 10) k (by omega) hdiv
        simp only [List.length_append, List.length_cons, List.length_nil]
        omega

theorem natChars_length_le (n k : ℕ) (h0 : 0 < k) (h : n < 10 ^ k) :
    (natChars n).length ≤ k := by
  by_cases hn : n = 0
  · subst hn; simp [natChars]; omega
  · rw [natChars, if_neg hn]
    exact natCharsAux_length (n + 1) n k (by omega) h

theorem fracPad_digits (m : ℕ) : ∀ x ∈ fracPad m, isDigitCh x = true := by
  intro x hx
  rcases List.mem_append.mp hx with hx | hx
  · have : x = '0' := List.eq_of_mem_replicate hx
    subst this; decide
  · exact natChars_digits m x hx

theorem fracPad_length (m : ℕ) (h : m < 1000000) :
    (fracPad m).length = 6 := by
  have hle : (natChars m).length ≤ 6 :=
    natChars_length_le m 6 (by omega) (by norm_num; omega)
  simp [fracPad]
  omega

/-! ### Number token round-trips -/

/-- Is the head of the list a digit? -/
def digitHead : List Char → Bool
  | [] => false
  | c :: _ => isDigitCh c

/-- The next character (if any) cannot extend a number token. -/
def numStop : List Char → Bool
  | [] => true
  | c :: _ => !isDigitCh c && decide (c ≠ '.')
      && decide (c ≠ 'e') && decide (c ≠ 'E')

theorem numStop_facts (c : Char) (r : List Char)
    (h : numStop (c :: r) = true) :
    isDigitCh c = false ∧ c ≠ '.' ∧ c ≠ 'e' ∧ c ≠ 'E' := by
  simpa [numStop, Bool.and_eq_true, Bool.not_eq_true',
    decide_eq_true_eq, and_assoc] using h

theorem numStop_digitHead (rest : List Char) (h : numStop rest = true) :
    digitHead rest = false := by
  cases rest with
  | nil => rfl
  | cons c r => exact (numStop_facts c r h).1

theorem takeWhile_digits_append (ds rest : List Char)
    (hds : ∀ c ∈ ds, isDigitCh c = true)
    (hrest : digitHead rest = false) :
    (ds ++ rest).takeWhile isDigitCh = ds := by
  induction ds with
  | nil =>
    cases rest with
    | nil => rfl
    | cons c cs =>
      have hc : isDigitCh c = false := hrest
      simp [List.takeWhile_cons, hc]
  | cons d ds ih =>
    have hd := hds d (List.mem_cons_self _ _)
    simp [List.takeWhile_cons, hd,
      ih (fun c hc => hds c (List.mem_cons_of_mem _ hc))]

theorem dropWhile_digits_append (ds rest : List Char)
    (hds : ∀ c ∈ ds, isDigitCh c = true)
    (hrest : digitHead rest = false) :
    (ds ++ rest).dropWhile isDigitCh = rest := by
  induction ds with
  | nil =>
    cases rest with
    | nil => rfl
    | cons c cs =>
      have hc : isDigitCh c = false := hrest
      simp [List.dropWhile_cons, hc]
  | cons d ds ih =>
    have hd := hds d (List.mem_cons_self _ _)
    simp [List.dropWhile_cons, hd,
      ih (fun c hc => hds c (List.mem_cons_of_mem _ hc))]

theorem span_digits_append (ds rest : List Char)
    (hds : ∀ c ∈ ds, isDigitCh c = true)
    (hrest : digitHead rest = false) :
    List.span isDigitCh (ds ++ rest) = (ds, rest) := by
  rw [List.span_eq_take_drop, takeWhile_digits_append ds rest hds hrest,
    dropWhile_digits_append ds rest hds hrest]

/-- A digit character is not any of the structural characters the
readers test for. -/
theorem isDigitCh_ne (c : Char) (h : isDigitCh c = true) :
    c ≠ '-' ∧ c ≠ '"' ∧ c ≠ '[' ∧ c ≠ '\x7b' ∧ c ≠ 't' ∧ c ≠ 'f'
      ∧ c ≠ 'n' ∧ c ≠ '.' ∧ c ≠ 'e' ∧ c ≠ 'E' ∧ wsChar c = false := by
  simp only [isDigitCh, Bool.and_eq_true, decide_eq_true_eq] at h
  refine ⟨?_, ?_, ?_, ?_, ?_, ?_, ?_, ?_, ?_, ?_, ?_⟩
  all_goals first
    | (rintro rfl; revert h; decide)
    | (simp only [wsChar]
       apply decide_eq_false
       rintro (rfl | rfl | rfl | rfl) <;> revert h <;> decide)

theorem scanExp_stop (sgn intPart fracPart rest : List Char)
    (hstop : numStop rest = true) :
    scanExp sgn intPart fracPart rest
      = some (sgn ++ intPart ++ fracPart, rest) := by
  cases rest with
  | nil => simp [scanExp]
  | cons c r =>
    obtain ⟨_, _, he, hE⟩ := numStop_facts c r hstop
    simp [scanExp, he, hE]

theorem scanFrac_stop (sgn intPart rest : List Char)
    (hstop : numStop rest = true) :
    scanFrac sgn intPart rest = some (sgn ++ intPart, rest) := by
  cases rest with
  | nil => simp [scanFrac, scanExp]
  | cons c r =>
    obtain ⟨_, hdot, he, hE⟩ := numStop_facts c r hstop
    simp [scanFrac, hdot, scanExp, he, hE]

theorem scanNumBody_natChars (sgn : List Char) (n : ℕ)
    (rest : List Char) (hstop : numStop rest = true) :
    scanNumBody sgn (natChars n ++ rest)
      = some (sgn ++ natChars n, rest) := by
  by_cases hn : n = 0
  · subst hn
    show scanNumBody sgn ('0' :: rest) = some (sgn ++ ['0'], rest)
    simp only [scanNumBody, if_pos rfl]
    exact scanFrac_stop sgn ['0'] rest hstop
  · rw [natChars, if_neg hn]
    obtain ⟨c, cs, heq, hdig, hz, hall⟩ :=
      natCharsAux_spec (n + 1) n (by omega) (by omega)
    rw [heq, List.cons_append]
    show scanNumBody sgn (c :: (cs ++ rest)) = some (sgn ++ c :: cs, rest)
    simp only [scanNumBody, if_neg hz, hdig, if_pos rfl, if_true]
    rw [span_digits_append cs rest hall (numStop_digitHead rest hstop)]
    have := scanFrac_stop sgn (c :: cs) rest hstop
    simpa using this

theorem scanNum_natChars (n : ℕ) (rest : List Char)
    (hstop : numStop rest = true) :
    scanNum (natChars n ++ rest) = some (natChars n, rest) := by
  by_cases hn : n = 0
  · subst hn
    show scanNum ('0' :: rest) = some (['0'], rest)
    have hb := scanNumBody_natChars [] 0 rest hstop
    simpa [scanNum] using hb
  · rw [natChars, if_neg hn]
    obtain ⟨c, cs, heq, hdig, hz, hall⟩ :=
      natCharsAux_spec (n + 1) n (by omega) (by omega)
    rw [heq, List.cons_append]
    have hminus := (isDigitCh_ne c hdig).1
    have hb := scanNumBody_natChars [] n rest hstop
    rw [natChars, if_neg hn, heq, List.cons_append] at hb
    simpa [scanNum, hminus] using hb

theorem scanFrac_dot (sgn intPart : List Char) (B : ℕ) (hB : B < 1000000)
    (rest : List Char) (hstop : numStop rest = true) :
    scanFrac sgn intPart ('.' :: (fracPad B ++ rest))
      = some (sgn ++ intPart ++ '.' :: fracPad B, rest) := by
  have hne : (fracPad B).isEmpty = false := by
    cases hfp : fracPad B with
    | nil =>
      have := fracPad_length B hB
      rw [hfp] at this
      simp at this
    | cons a l => rfl
  simp only [scanFrac, if_pos rfl]
  rw [span_digits_append (fracPad B) rest (fracPad_digits B)
    (numStop_digitHead rest hstop)]
  simp only [hne, Bool.false_eq_true, if_false]
  exact scanExp_stop sgn intPart ('.' :: fracPad B) rest hstop

theorem scanNumBody_fixed (sgn : List Char) (A B : ℕ) (hB : B < 1000000)
    (rest : List Char) (hstop : numStop rest = true) :
    scanNumBody sgn (natChars A ++ '.' :: (fracPad B ++ rest))
      = some (sgn ++ natChars A ++ '.' :: fracPad B, rest) := by
  by_cases hA : A = 0
  · subst hA
    show scanNumBody sgn ('0' :: '.' :: (fracPad B ++ rest)) = _
    simp only [scanNumBody, if_pos rfl]
    exact scanFrac_dot sgn ['0'] B hB rest hstop
  · rw [natChars, if_neg hA]
    obtain ⟨c, cs, heq, hdig, hz, hall⟩ :=
      natCharsAux_spec (A + 1) A (by omega) (by omega)
    rw [heq, List.cons_append]
    show scanNumBody sgn (c :: (cs ++ '.' :: (fracPad B ++ rest))) = _
    simp only [scanNumBody, if_neg hz, hdig, if_pos rfl, if_true]
    rw [span_digits_append cs ('.' :: (fracPad B ++ rest)) hall
      (show digitHead ('.' :: (fracPad B ++ rest)) = false from rfl)]
    rw [scanFrac_dot sgn (c :: cs) B hB rest hstop]

theorem scanNum_fixed (sgn : List Char) (hsgn : sgn = [] ∨ sgn = ['-'])
    (A B : ℕ) (hB : B < 1000000) (rest : List Char)
    (hstop : numStop rest = true) :
    scanNum (sgn ++ natChars A ++ '.' :: (fracPad B ++ rest))
      = some (sgn ++ natChars A ++ '.' :: fracPad B, rest) := by
  rcases hsgn with rfl | rfl
  · simp only [List.nil_append]
    by_cases hA : A = 0
    · subst hA
      show scanNum ('0' :: '.' :: (fracPad B ++ rest)) = _
      have hb := scanNumBody_fixed [] 0 B hB rest hstop
      simpa [scanNum] using hb
    · rw [natChars, if_neg hA]
      obtain ⟨c, cs, heq, hdig, hz, hall⟩ :=
        natCharsAux_spec (A + 1) A (by omega) (by omega)
      rw [heq, List.cons_append]
      have hminus := (isDigitCh_ne c hdig).1
      have hb := scanNumBody_fixed [] A B hB rest hstop
      rw [natChars, if_neg hA, heq, List.cons_append] at hb
      simpa [scanNum, hminus] using hb
  · show scanNum ('-' :: (natChars A ++ '.' :: (fracPad B ++ rest))) = _
    have hb := scanNumBody_fixed ['-'] A B hB rest hstop
    simpa [scanNum] using hb

theorem scanNum_fmt6 (q : ℚ) (rest : List Char)
    (hstop : numStop rest = true) :
    scanNum (fmt6Chars q ++ rest) = some (fmt6Chars q, rest) := by
  have hB : (2 * q.num.natAbs * 1000000 + q.den) / (2 * q.den) % 1000000
      < 1000000 := Nat.mod_lt _ (by norm_num)
  by_cases hq : q.num < 0
  · have h := scanNum_fixed ['-'] (Or.inr rfl)
      ((2 * q.num.natAbs * 1000000 + q.den) / (2 * q.den) / 1000000)
      ((2 * q.num.natAbs * 1000000 + q.den) / (2 * q.den) % 1000000)
      hB rest hstop
    simp only [fmt6Chars, if_pos hq]
    simpa [List.append_assoc] using h
  · have h := scanNum_fixed [] (Or.inl rfl)
      ((2 * q.num.natAbs * 1000000 + q.den) / (2 * q.den) / 1000000)
      ((2 * q.num.natAbs * 1000000 + q.den) / (2 * q.den) % 1000000)
      hB rest hstop
    simp only [fmt6Chars, if_neg hq]
    simpa [List.append_assoc] using h

/-! ### String and value round-trips -/

theorem scanStr_safe : ∀ (s rest : List Char),
    (∀ c ∈ s, jsonSafeChar c = true) →
    scanStr (s ++ '"' :: rest) = some (s, rest) := by
  intro s
  induction s with
  | nil =>
    intro rest _
    show scanStr ('"' :: rest) = some ([], rest)
    rw [scanStr.eq_def]
    simp
  | cons c s ih =>
    intro rest hsafe
    have hc := hsafe c (List.mem_cons_self _ _)
    simp only [jsonSafeChar, Bool.and_eq_true, decide_eq_true_eq] at hc
    obtain ⟨⟨hq, hbs⟩, hctl⟩ := hc
    show scanStr (c :: (s ++ '"' :: rest)) = some (c :: s, rest)
    rw [scanStr.eq_def]
    simp only [if_neg hq, if_neg hbs,
      if_neg (by omega : ¬ c.toNat < 32),
      ih rest (fun x hx => hsafe x (List.mem_cons_of_mem _ hx)),
      Option.map_some']

/-- A leading space, a quote, a safe string body, the closing quote:
exactly how the writer lays out every string value. -/
theorem parseVal_str (f : ℕ) (s rest : List Char)
    (hs : ∀ c ∈ s, jsonSafeChar c = true) :
    parseVal (f + 1) (' ' :: '"' :: (s ++ '"' :: rest))
      = some (JVal.jstr (String.mk s), rest) := by
  simp only [parseVal]
  rw [show skipWs (' ' :: '"' :: (s ++ '"' :: rest))
      = '"' :: (s ++ '"' :: rest) from rfl]
  simp [scanStr_safe s rest hs]

/-- A leading space then a number token whose head is not one of the
structural characters: the reader falls through to the number branch
and consumes exactly the token. -/
theorem parseVal_numTok (f : ℕ) (tok rest : List Char) (c : Char)
    (cs : List Char) (heq : tok = c :: cs)
    (h1 : c ≠ '"') (h2 : c ≠ '[') (h3 : c ≠ '\x7b') (h4 : c ≠ 't')
    (h5 : c ≠ 'f') (h6 : c ≠ 'n') (h7 : wsChar c = false)
    (hscan : scanNum (tok ++ rest) = some (tok, rest)) :
    parseVal (f + 1) (' ' :: (tok ++ rest))
      = some (JVal.jnum (String.mk tok), rest) := by
  subst heq
  rw [List.cons_append]
  rw [List.cons_append] at hscan
  simp only [parseVal]
  rw [show skipWs (' ' :: c :: (cs ++ rest)) = skipWs (c :: (cs ++ rest))
      from rfl,
    show skipWs (c :: (cs ++ rest)) = c :: (cs ++ rest) from by
      simp [skipWs, h7]]
  simp [h1, h2, h3, h4, h5, h6, hscan]

theorem natChars_head (n : ℕ) :
    ∃ c cs, natChars n = c :: cs ∧ isDigitCh c = true := by
  by_cases hn : n = 0
  · exact ⟨'0', [], by simp [natChars, hn], by decide⟩
  · obtain ⟨c, cs, heq, hdig, _, _⟩ :=
      natCharsAux_spec (n + 1) n (by omega) (by omega)
    exact ⟨c, cs, by rw [natChars, if_neg hn]; exact heq, hdig⟩

theorem fmt6Chars_head (q : ℚ) :
    ∃ c cs, fmt6Chars q = c :: cs
      ∧ (c = '-' ∨ isDigitCh c = true) := by
  by_cases hq : q.num < 0
  · refine ⟨'-', natChars
      ((2 * q.num.natAbs * 1000000 + q.den) / (2 * q.den) / 1000000)
      ++ '.' :: fracPad
      ((2 * q.num.natAbs * 1000000 + q.den) / (2 * q.den) % 1000000),
      ?_, Or.inl rfl⟩
    simp only [fmt6Chars]
    rw [if_pos hq]
    rfl
  · obtain ⟨c, cs, heq, hdig⟩ := natChars_head
      ((2 * q.num.natAbs * 1000000 + q.den) / (2 * q.den) / 1000000)
    refine ⟨c, cs ++ '.' :: fracPad
      ((2 * q.num.natAbs * 1000000 + q.den) / (2 * q.den) % 1000000),
      ?_, Or.inr hdig⟩
    simp only [fmt6Chars, if_neg hq]
    rw [heq]
    rfl

/-- A leading space then a decimal integer token. -/
theorem parseVal_natChars (f n : ℕ) (rest : List Char)
    (hstop : numStop rest = true) :
    parseVal (f + 1) (' ' :: (natChars n ++ rest))
      = some (JVal.jnum (natStr n), rest) := by
  obtain ⟨c, cs, heq, hdig⟩ := natChars_head n
  obtain ⟨_, h2, h3, h4, h5, h6, h7, _, _, _, h11⟩ := isDigitCh_ne c hdig
  have h := parseVal_numTok f (natChars n) rest c cs heq h2 h3 h4 h5 h6
    h7 h11 (scanNum_natChars n rest hstop)
  simpa [natStr] using h

/-- A leading space then a fixed-point six-decimal token. -/
theorem parseVal_fmt6 (f : ℕ) (q : ℚ) (rest : List Char)
    (hstop : numStop rest = true) :
    parseVal (f + 1) (' ' :: (fmt6Chars q ++ rest))
      = some (JVal.jnum (fmt6 q), rest) := by
  obtain ⟨c, cs, heq, hc⟩ := fmt6Chars_head q
  have hne : c ≠ '"' ∧ c ≠ '[' ∧ c ≠ '\x7b' ∧ c ≠ 't' ∧ c ≠ 'f'
      ∧ c ≠ 'n' ∧ wsChar c = false := by
    rcases hc with rfl | hdig
    · exact ⟨by decide, by decide, by decide, by decide, by decide,
        by decide, by decide⟩
    · obtain ⟨_, h2, h3, h4, h5, h6, h7, _, _, _, h11⟩ :=
        isDigitCh_ne c hdig
      exact ⟨h2, h3, h4, h5, h6, h7, h11⟩
  obtain ⟨h1, h2, h3, h4, h5, h6, h7⟩ := hne
  have h := parseVal_numTok f (fmt6Chars q) rest c cs heq h1 h2 h3 h4 h5
    h6 h7 (scanNum_fmt6 q rest hstop)
  simpa [fmt6] using h

/-! ### Object members -/

/-- Reading the last member of an object: key, colon, value, then the
closing brace. -/
theorem parseMembers_last (f : ℕ) (l key : List Char)
    (hkey : ∀ c ∈ key, jsonSafeChar c = true)
    (vin : List Char) (v : JVal) (r3 rest : List Char)
    (hsk : skipWs l = '"' :: (key ++ '"' :: ':' :: vin))
    (hval : parseVal f vin = some (v, r3))
    (hskip : skipWs r3 = '\x7d' :: rest) :
    parseMembers (f + 1) l = some ([(String.mk key, v)], rest) := by
  have hsc := scanStr_safe key (':' :: vin) hkey
  simp only [parseMembers]
  rw [hsk]
  simp only [hsc, hval, hskip]
  rw [show skipWs (':' :: vin) = ':' :: vin from rfl]
  simp [hval, hskip]

/-- Reading a non-final member of an object: key, colon, value, a
comma, then the remaining members. -/
theorem parseMembers_more (f : ℕ) (l key : List Char)
    (hkey : ∀ c ∈ key, jsonSafeChar c = true)
    (vin : List Char) (v : JVal) (r3 r4 rest : List Char)
    (ms : List (String × JVal))
    (hsk : skipWs l = '"' :: (key ++ '"' :: ':' :: vin))
    (hval : parseVal f vin = some (v, r3))
    (hskip : skipWs r3 = ',' :: r4)
    (hrec : parseMembers f r4 = some (ms, rest)) :
    parseMembers (f + 1) l = some ((String.mk key, v) :: ms, rest) := by
  have hsc := scanStr_safe key (':' :: vin) hkey
  simp only [parseMembers]
  rw [hsk]
  simp only [hsc, hval, hskip]
  rw [show skipWs (':' :: vin) = ':' :: vin from rfl]
  simp [hval, hskip, hrec]

/-- Reading one serialized entry: the reader consumes exactly
`jsonEntryChars e` and returns the documented object. -/
theorem parseVal_entry (f : ℕ) (e : ProfileEntry) (rest : List Char)
    (hsafe : ∀ c ∈ e.name.data, jsonSafeChar c = true) :
    parseVal (f + 6) (jsonEntryChars e ++ rest)
      = some (entryAst e, rest) := by
  by_cases hb : 0 < e.total_bytes
  · have hv4 : parseVal (f + 1) (' ' :: (natChars e.total_bytes ++ '\n' :: ' ' :: ' ' :: '\x7d' :: rest))
        = some (JVal.jnum (natStr e.total_bytes), '\n' :: ' ' :: ' ' :: '\x7d' :: rest) :=
      parseVal_natChars f e.total_bytes _ rfl
    have hm4 : parseMembers (f + 2) ('\n' :: ' ' :: ' ' :: ' ' :: ' ' :: '"' :: 't' :: 'o' :: 't' :: 'a' :: 'l' :: '_' :: 'b' :: 'y' :: 't' :: 'e' :: 's' :: '"' :: ':' :: ' ' :: (natChars e.total_bytes ++ '\n' :: ' ' :: ' ' :: '\x7d' :: rest))
        = some ([("total_bytes", JVal.jnum (natStr e.total_bytes))],
            rest) :=
      parseMembers_last (f + 1) _ ['t', 'o', 't', 'a', 'l', '_', 'b', 'y', 't', 'e', 's'] (by decide)
        _ _ _ _ rfl hv4 rfl
    have hv3 : parseVal (f + 2) (' ' :: (fmt6Chars e.total_seconds ++ ',' :: '\n' :: ' ' :: ' ' :: ' ' :: ' ' :: '"' :: 't' :: 'o' :: 't' :: 'a' :: 'l' :: '_' :: 'b' :: 'y' :: 't' :: 'e' :: 's' :: '"' :: ':' :: ' ' :: (natChars e.total_bytes ++ '\n' :: ' ' :: ' ' :: '\x7d' :: rest)))
        = some (JVal.jnum (fmt6 e.total_seconds), ',' :: '\n' :: ' ' :: ' ' :: ' ' :: ' ' :: '"' :: 't' :: 'o' :: 't' :: 'a' :: 'l' :: '_' :: 'b' :: 'y' :: 't' :: 'e' :: 's' :: '"' :: ':' :: ' ' :: (natChars e.total_bytes ++ '\n' :: ' ' :: ' ' :: '\x7d' :: rest)) :=
      parseVal_fmt6 (f + 1) e.total_seconds _ rfl
    have hm3 : parseMembers (f + 3) ('\n' :: ' ' :: ' ' :: ' ' :: ' ' :: '"' :: 't' :: 'o' :: 't' :: 'a' :: 'l' :: '_' :: 's' :: 'e' :: 'c' :: 'o' :: 'n' :: 'd' :: 's' :: '"' :: ':' :: ' ' :: (fmt6Chars e.total_seconds ++ ',' :: '\n' :: ' ' :: ' ' :: ' ' :: ' ' :: '"' :: 't' :: 'o' :: 't' :: 'a' :: 'l' :: '_' :: 'b' :: 'y' :: 't' :: 'e' :: 's' :: '"' :: ':' :: ' ' :: (natChars e.total_bytes ++ '\n' :: ' ' :: ' ' :: '\x7d' :: rest)))
        = some ([("total_seconds", JVal.jnum (fmt6 e.total_seconds)),
            ("total_bytes", JVal.jnum (natStr e.total_bytes))], rest) :=
      parseMembers_more (f + 2) _ ['t', 'o', 't', 'a', 'l', '_', 's', 'e', 'c', 'o', 'n', 'd', 's'] (by decide)
        _ _ _ _ _ _ rfl hv3 rfl hm4
    have hv2 : parseVal (f + 3) (' ' :: (natChars e.calls ++ ',' :: '\n' :: ' ' :: ' ' :: ' ' :: ' ' :: '"' :: 't' :: 'o' :: 't' :: 'a' :: 'l' :: '_' :: 's' :: 'e' :: 'c' :: 'o' :: 'n' :: 'd' :: 's' :: '"' :: ':' :: ' ' :: (fmt6Chars e.total_seconds ++ ',' :: '\n' :: ' ' :: ' ' :: ' ' :: ' ' :: '"' :: 't' :: 'o' :: 't' :: 'a' :: 'l' :: '_' :: 'b' :: 'y' :: 't' :: 'e' :: 's' :: '"' :: ':' :: ' ' :: (natChars e.total_bytes ++ '\n' :: ' ' :: ' ' :: '\x7d' :: rest))))
        = some (JVal.jnum (natStr e.calls), ',' :: '\n' :: ' ' :: ' ' :: ' ' :: ' ' :: '"' :: 't' :: 'o' :: 't' :: 'a' :: 'l' :: '_' :: 's' :: 'e' :: 'c' :: 'o' :: 'n' :: 'd' :: 's' :: '"' :: ':' :: ' ' :: (fmt6Chars e.total_seconds ++ ',' :: '\n' :: ' ' :: ' ' :: ' ' :: ' ' :: '"' :: 't' :: 'o' :: 't' :: 'a' :: 'l' :: '_' :: 'b' :: 'y' :: 't' :: 'e' :: 's' :: '"' :: ':' :: ' ' :: (natChars e.total_bytes ++ '\n' :: ' ' :: ' ' :: '\x7d' :: rest))) :=
      parseVal_natChars (f + 2) e.calls _ rfl
    have hm2 : parseMembers (f + 4) ('\n' :: ' ' :: ' ' :: ' ' :: ' ' :: '"' :: 'c' :: 'a' :: 'l' :: 'l' :: 's' :: '"' :: ':' :: ' ' :: (natChars e.calls ++ ',' :: '\n' :: ' ' :: ' ' :: ' ' :: ' ' :: '"' :: 't' :: 'o' :: 't' :: 'a' :: 'l' :: '_' :: 's' :: 'e' :: 'c' :: 'o' :: 'n' :: 'd' :: 's' :: '"' :: ':' :: ' ' :: (fmt6Chars e.total_seconds ++ ',' :: '\n' :: ' ' :: ' ' :: ' ' :: ' ' :: '"' :: 't' :: 'o' :: 't' :: 'a' :: 'l' :: '_' :: 'b' :: 'y' :: 't' :: 'e' :: 's' :: '"' :: ':' :: ' ' :: (natChars e.total_bytes ++ '\n' :: ' ' :: ' ' :: '\x7d' :: rest))))
        = some ([("calls", JVal.jnum (natStr e.calls)),
            ("total_seconds", JVal.jnum (fmt6 e.total_seconds)),
            ("total_bytes", JVal.jnum (natStr e.total_bytes))], rest) :=
      parseMembers_more (f + 3) _ ['c', 'a', 'l', 'l', 's'] (by decide)
        _ _ _ _ _ _ rfl hv2 rfl hm3
    have hv1 : parseVal (f + 4) (' ' :: '"' :: (e.name.data ++ '"' :: ',' :: '\n' :: ' ' :: ' ' :: ' ' :: ' ' :: '"' :: 'c' :: 'a' :: 'l' :: 'l' :: 's' :: '"' :: ':' :: ' ' :: (natChars e.calls ++ ',' :: '\n' :: ' ' :: ' ' :: ' ' :: ' ' :: '"' :: 't' :: 'o' :: 't' :: 'a' :: 'l' :: '_' :: 's' :: 'e' :: 'c' :: 'o' :: 'n' :: 'd' :: 's' :: '"' :: ':' :: ' ' :: (fmt6Chars e.total_seconds ++ ',' :: '\n' :: ' ' :: ' ' :: ' ' :: ' ' :: '"' :: 't' :: 'o' :: 't' :: 'a' :: 'l' :: '_' :: 'b' :: 'y' :: 't' :: 'e' :: 's' :: '"' :: ':' :: ' ' :: (natChars e.total_bytes ++ '\n' :: ' ' :: ' ' :: '\x7d' :: rest)))))
        = some (JVal.jstr e.name, ',' :: '\n' :: ' ' :: ' ' :: ' ' :: ' ' :: '"' :: 'c' :: 'a' :: 'l' :: 'l' :: 's' :: '"' :: ':' :: ' ' :: (natChars e.calls ++ ',' :: '\n' :: ' ' :: ' ' :: ' ' :: ' ' :: '"' :: 't' :: 'o' :: 't' :: 'a' :: 'l' :: '_' :: 's' :: 'e' :: 'c' :: 'o' :: 'n' :: 'd' :: 's' :: '"' :: ':' :: ' ' :: (fmt6Chars e.total_seconds ++ ',' :: '\n' :: ' ' :: ' ' :: ' ' :: ' ' :: '"' :: 't' :: 'o' :: 't' :: 'a' :: 'l' :: '_' :: 'b' :: 'y' :: 't' :: 'e' :: 's' :: '"' :: ':' :: ' ' :: (natChars e.total_bytes ++ '\n' :: ' ' :: ' ' :: '\x7d' :: rest)))) :=
      parseVal_str (f + 3) e.name.data _ hsafe
    have hm1 : parseMembers (f + 5) ('"' :: 'n' :: 'a' :: 'm' :: 'e' :: '"' :: ':' :: ' ' :: '"' :: (e.name.data ++ '"' :: ',' :: '\n' :: ' ' :: ' ' :: ' ' :: ' ' :: '"' :: 'c' :: 'a' :: 'l' :: 'l' :: 's' :: '"' :: ':' :: ' ' :: (natChars e.calls ++ ',' :: '\n' :: ' ' :: ' ' :: ' ' :: ' ' :: '"' :: 't' :: 'o' :: 't' :: 'a' :: 'l' :: '_' :: 's' :: 'e' :: 'c' :: 'o' :: 'n' :: 'd' :: 's' :: '"' :: ':' :: ' ' :: (fmt6Chars e.total_seconds ++ ',' :: '\n' :: ' ' :: ' ' :: ' ' :: ' ' :: '"' :: 't' :: 'o' :: 't' :: 'a' :: 'l' :: '_' :: 'b' :: 'y' :: 't' :: 'e' :: 's' :: '"' :: ':' :: ' ' :: (natChars e.total_bytes ++ '\n' :: ' ' :: ' ' :: '\x7d' :: rest)))))
        = some ([("name", JVal.jstr e.name),
            ("calls", JVal.jnum (natStr e.calls)),
            ("total_seconds", JVal.jnum (fmt6 e.total_seconds)),
            ("total_bytes", JVal.jnum (natStr e.total_bytes))], rest) :=
      parseMembers_more (f + 4) _ ['n', 'a', 'm', 'e'] (by decide)
        _ _ _ _ _ _ rfl hv1 rfl hm2
    have hshape : jsonEntryChars e ++ rest = ' ' :: ' ' :: '\x7b' :: '\n' :: ' ' :: ' ' :: ' ' :: ' ' :: '"' :: 'n' :: 'a' :: 'm' :: 'e' :: '"' :: ':' :: ' ' :: '"' :: (e.name.data ++ '"' :: ',' :: '\n' :: ' ' :: ' ' :: ' ' :: ' ' :: '"' :: 'c' :: 'a' :: 'l' :: 'l' :: 's' :: '"' :: ':' :: ' ' :: (natChars e.calls ++ ',' :: '\n' :: ' ' :: ' ' :: ' ' :: ' ' :: '"' :: 't' :: 'o' :: 't' :: 'a' :: 'l' :: '_' :: 's' :: 'e' :: 'c' :: 'o' :: 'n' :: 'd' :: 's' :: '"' :: ':' :: ' ' :: (fmt6Chars e.total_seconds ++ ',' :: '\n' :: ' ' :: ' ' :: ' ' :: ' ' :: '"' :: 't' :: 'o' :: 't' :: 'a' :: 'l' :: '_' :: 'b' :: 'y' :: 't' :: 'e' :: 's' :: '"' :: ':' :: ' ' :: (natChars e.total_bytes ++ '\n' :: ' ' :: ' ' :: '\x7d' :: rest)))) := by
      simp only [jsonEntryChars, if_pos hb, List.append_assoc,
        List.cons_append, List.nil_append]
    rw [hshape]
    simp only [parseVal]
    rw [show ∀ R : List Char,
        skipWs (' ' :: ' ' :: '\x7b' :: R) = '\x7b' :: R
      from fun _ => rfl]
    simp
    rw [show ∀ R : List Char,
        skipWs ('\n' :: ' ' :: ' ' :: ' ' :: ' ' :: '"' :: R)
          = '"' :: R
      from fun _ => rfl]
    simp [hm1, entryAst, if_pos hb]
  · have hv3 : parseVal (f + 2) (' ' :: (fmt6Chars e.total_seconds ++ '\n' :: ' ' :: ' ' :: '\x7d' :: rest))
        = some (JVal.jnum (fmt6 e.total_seconds), '\n' :: ' ' :: ' ' :: '\x7d' :: rest) :=
      parseVal_fmt6 (f + 1) e.total_seconds _ rfl
    have hm3 : parseMembers (f + 3) ('\n' :: ' ' :: ' ' :: ' ' :: ' ' :: '"' :: 't' :: 'o' :: 't' :: 'a' :: 'l' :: '_' :: 's' :: 'e' :: 'c' :: 'o' :: 'n' :: 'd' :: 's' :: '"' :: ':' :: ' ' :: (fmt6Chars e.total_seconds ++ '\n' :: ' ' :: ' ' :: '\x7d' :: rest))
        = some ([("total_seconds", JVal.jnum (fmt6 e.total_seconds))],
            rest) :=
      parseMembers_last (f + 2) _ ['t', 'o', 't', 'a', 'l', '_', 's', 'e', 'c', 'o', 'n', 'd', 's'] (by decide)
        _ _ _ _ rfl hv3 rfl
    have hv2 : parseVal (f + 3) (' ' :: (natChars e.calls ++ ',' :: '\n' :: ' ' :: ' ' :: ' ' :: ' ' :: '"' :: 't' :: 'o' :: 't' :: 'a' :: 'l' :: '_' :: 's' :: 'e' :: 'c' :: 'o' :: 'n' :: 'd' :: 's' :: '"' :: ':' :: ' ' :: (fmt6Chars e.total_seconds ++ '\n' :: ' ' :: ' ' :: '\x7d' :: rest)))
        = some (JVal.jnum (natStr e.calls), ',' :: '\n' :: ' ' :: ' ' :: ' ' :: ' ' :: '"' :: 't' :: 'o' :: 't' :: 'a' :: 'l' :: '_' :: 's' :: 'e' :: 'c' :: 'o' :: 'n' :: 'd' :: 's' :: '"' :: ':' :: ' ' :: (fmt6Chars e.total_seconds ++ '\n' :: ' ' :: ' ' :: '\x7d' :: rest)) :=
      parseVal_natChars (f + 2) e.calls _ rfl
    have hm2 : parseMembers (f + 4) ('\n' :: ' ' :: ' ' :: ' ' :: ' ' :: '"' :: 'c' :: 'a' :: 'l' :: 'l' :: 's' :: '"' :: ':' :: ' ' :: (natChars e.calls ++ ',' :: '\n' :: ' ' :: ' ' :: ' ' :: ' ' :: '"' :: 't' :: 'o' :: 't' :: 'a' :: 'l' :: '_' :: 's' :: 'e' :: 'c' :: 'o' :: 'n' :: 'd' :: 's' :: '"' :: ':' :: ' ' :: (fmt6Chars e.total_seconds ++ '\n' :: ' ' :: ' ' :: '\x7d' :: rest)))
        = some ([("calls", JVal.jnum (natStr e.calls)),
            ("total_seconds", JVal.jnum (fmt6 e.total_seconds))],
            rest) :=
      parseMembers_more (f + 3) _ ['c', 'a', 'l', 'l', 's'] (by decide)
        _ _ _ _ _ _ rfl hv2 rfl hm3
    have hv1 : parseVal (f + 4) (' ' :: '"' :: (e.name.data ++ '"' :: ',' :: '\n' :: ' ' :: ' ' :: ' ' :: ' ' :: '"' :: 'c' :: 'a' :: 'l' :: 'l' :: 's' :: '"' :: ':' :: ' ' :: (natChars e.calls ++ ',' :: '\n' :: ' ' :: ' ' :: ' ' :: ' ' :: '"' :: 't' :: 'o' :: 't' :: 'a' :: 'l' :: '_' :: 's' :: 'e' :: 'c' :: 'o' :: 'n' :: 'd' :: 's' :: '"' :: ':' :: ' ' :: (fmt6Chars e.total_seconds ++ '\n' :: ' ' :: ' ' :: '\x7d' :: rest))))
        = some (JVal.jstr e.name, ',' :: '\n' :: ' ' :: ' ' :: ' ' :: ' ' :: '"' :: 'c' :: 'a' :: 'l' :: 'l' :: 's' :: '"' :: ':' :: ' ' :: (natChars e.calls ++ ',' :: '\n' :: ' ' :: ' ' :: ' ' :: ' ' :: '"' :: 't' :: 'o' :: 't' :: 'a' :: 'l' :: '_' :: 's' :: 'e' :: 'c' :: 'o' :: 'n' :: 'd' :: 's' :: '"' :: ':' :: ' ' :: (fmt6Chars e.total_seconds ++ '\n' :: ' ' :: ' ' :: '\x7d' :: rest))) :=
      parseVal_str (f + 3) e.name.data _ hsafe
    have hm1 : parseMembers (f + 5) ('"' :: 'n' :: 'a' :: 'm' :: 'e' :: '"' :: ':' :: ' ' :: '"' :: (e.name.data ++ '"' :: ',' :: '\n' :: ' ' :: ' ' :: ' ' :: ' ' :: '"' :: 'c' :: 'a' :: 'l' :: 'l' :: 's' :: '"' :: ':' :: ' ' :: (natChars e.calls ++ ',' :: '\n' :: ' ' :: ' ' :: ' ' :: ' ' :: '"' :: 't' :: 'o' :: 't' :: 'a' :: 'l' :: '_' :: 's' :: 'e' :: 'c' :: 'o' :: 'n' :: 'd' :: 's' :: '"' :: ':' :: ' ' :: (fmt6Chars e.total_seconds ++ '\n' :: ' ' :: ' ' :: '\x7d' :: rest))))
        = some ([("name", JVal.jstr e.name),
            ("calls", JVal.jnum (natStr e.calls)),
            ("total_seconds", JVal.jnum (fmt6 e.total_seconds))],
            rest) :=
      parseMembers_more (f + 4) _ ['n', 'a', 'm', 'e'] (by decide)
        _ _ _ _ _ _ rfl hv1 rfl hm2
    have hshape : jsonEntryChars e ++ rest = ' ' :: ' ' :: '\x7b' :: '\n' :: ' ' :: ' ' :: ' ' :: ' ' :: '"' :: 'n' :: 'a' :: 'm' :: 'e' :: '"' :: ':' :: ' ' :: '"' :: (e.name.data ++ '"' :: ',' :: '\n' :: ' ' :: ' ' :: ' ' :: ' ' :: '"' :: 'c' :: 'a' :: 'l' :: 'l' :: 's' :: '"' :: ':' :: ' ' :: (natChars e.calls ++ ',' :: '\n' :: ' ' :: ' ' :: ' ' :: ' ' :: '"' :: 't' :: 'o' :: 't' :: 'a' :: 'l' :: '_' :: 's' :: 'e' :: 'c' :: 'o' :: 'n' :: 'd' :: 's' :: '"' :: ':' :: ' ' :: (fmt6Chars e.total_seconds ++ '\n' :: ' ' :: ' ' :: '\x7d' :: rest))) := by
      simp only [jsonEntryChars, if_neg hb, List.append_assoc,
        List.cons_append, List.nil_append]
    rw [hshape]
    simp only [parseVal]
    rw [show ∀ R : List Char,
        skipWs (' ' :: ' ' :: '\x7b' :: R) = '\x7b' :: R
      from fun _ => rfl]
    simp
    rw [show ∀ R : List Char,
        skipWs ('\n' :: ' ' :: ' ' :: ' ' :: ' ' :: '"' :: R)
          = '"' :: R
      from fun _ => rfl]
    simp [hm1, entryAst, if_neg hb]

/-! ### The element chain -/

/-- `jsonEntryChars` after its leading `"  \x7b"`. -/
def entryTail (e : ProfileEntry) : List Char :=
  "\n    \"name\": \"".data ++ e.name.data
    ++ "\",\n    \"calls\": ".data ++ natChars e.calls
    ++ ",\n    \"total_seconds\": ".data ++ fmt6Chars e.total_seconds
    ++ (if 0 < e.total_bytes
        then ",\n    \"total_bytes\": ".data ++ natChars e.total_bytes
        else [])
    ++ "\n  \x7d".data

theorem jsonEntryChars_eq (e : ProfileEntry) :
    jsonEntryChars e = ' ' :: ' ' :: '\x7b' :: entryTail e := rfl

theorem skipWs_braced (T X : List Char) :
    skipWs ((' ' :: ' ' :: '\x7b' :: T) ++ X) = '\x7b' :: (T ++ X) := rfl

theorem skipWs_idem : ∀ l : List Char, skipWs (skipWs l) = skipWs l := by
  intro l
  induction l with
  | nil => rfl
  | cons c l ih =>
    by_cases h : wsChar c = true
    · simp [skipWs, h, ih]
    · simp [skipWs, h]

theorem skipWs_cons_ws (c : Char) (l : List Char) (h : wsChar c = true) :
    skipWs (c :: l) = skipWs l := by
  simp [skipWs, h]

theorem parseVal_congr_skipWs : ∀ (fuel : ℕ) (l l' : List Char),
    skipWs l = skipWs l' → parseVal fuel l = parseVal fuel l' := by
  intro fuel l l' h
  cases fuel with
  | zero => rfl
  | succ fuel => simp only [parseVal, h]

theorem parseElems_congr_skipWs : ∀ (fuel : ℕ) (l l' : List Char),
    skipWs l = skipWs l' → parseElems fuel l = parseElems fuel l' := by
  intro fuel l l' h
  cases fuel with
  | zero => rfl
  | succ fuel =>
    simp only [parseElems, parseVal_congr_skipWs fuel l l' h]

/-- What follows the serialized entries of `es` inside the array, after
one leading entry has been peeled off: a comma-newline separator before
each further entry, then the newline and closing bracket. -/
def itemsTail : List ProfileEntry → List Char → List Char
  | [], rest => '\n' :: ']' :: rest
  | e :: es, rest => ',' :: '\n' :: (jsonEntryChars e ++ itemsTail es rest)

theorem jsonItems_append (rest : List Char) :
    ∀ (e : ProfileEntry) (es : List ProfileEntry),
    jsonItems (e :: es) ++ ']' :: rest
      = jsonEntryChars e ++ itemsTail es rest := by
  intro e es
  induction es generalizing e with
  | nil => simp [jsonItems, itemsTail]
  | cons e' es ih =>
    show (jsonEntryChars e ++ ',' :: '\n' :: jsonItems (e' :: es))
        ++ ']' :: rest = _
    rw [List.append_assoc]
    simp only [List.cons_append, itemsTail]
    rw [ih e']

/-- One step of the element loop (with the recursion depth symbolic, so
nothing unfolds further). -/
theorem parseElems_succ (fuel : ℕ) (l : List Char) :
    parseElems (fuel + 1) l
      = match parseVal fuel l with
        | none => none
        | some (v, r) =>
          match skipWs r with
          | ',' :: r₂ =>
            (parseElems fuel r₂).map (fun pr => (v :: pr.1, pr.2))
          | ']' :: r₂ => some ([v], r₂)
          | _ => none := by
  simp only [parseElems]

/-- Reading the whole element chain: one entry, then for each further
entry a comma and the entry, then the closing bracket. -/
theorem parseElems_items :
    ∀ (es : List ProfileEntry) (e : ProfileEntry) (f : ℕ)
      (rest : List Char),
    jsonSafe e.name = true → (∀ x ∈ es, jsonSafe x.name = true) →
    parseElems (7 * es.length + f + 7)
        (jsonEntryChars e ++ itemsTail es rest)
      = some (entryAst e :: es.map entryAst, rest) := by
  intro es
  induction es with
  | nil =>
    intro e f rest hsafe _
    rw [show (7 * ([] : List ProfileEntry).length + f + 7 : ℕ)
        = (f + 6) + 1 from by simp]
    rw [show itemsTail [] rest = '\n' :: ']' :: rest from rfl]
    rw [parseElems_succ (f + 6)]
    rw [parseVal_entry f e ('\n' :: ']' :: rest)
      (by simpa [jsonSafe, List.all_eq_true] using hsafe)]
    have hsk : skipWs ('\n' :: ']' :: rest) = ']' :: rest := rfl
    simp [hsk]
  | cons e' es ih =>
    intro e f rest hsafe hsafe'
    rw [show (7 * (e' :: es).length + f + 7 : ℕ)
        = ((7 * es.length + (f + 7)) + 6) + 1 from by
      simp [List.length_cons]; ring]
    rw [show itemsTail (e' :: es) rest
        = ',' :: '\n' :: (jsonEntryChars e' ++ itemsTail es rest)
      from rfl]
    rw [parseElems_succ ((7 * es.length + (f + 7)) + 6)]
    rw [parseVal_entry (7 * es.length + (f + 7)) e
      (',' :: '\n' :: (jsonEntryChars e' ++ itemsTail es rest))
      (by simpa [jsonSafe, List.all_eq_true] using hsafe)]
    have hrec : parseElems ((7 * es.length + (f + 7)) + 6)
        ('\n' :: (jsonEntryChars e' ++ itemsTail es rest))
        = some (entryAst e' :: es.map entryAst, rest) := by
      rw [parseElems_congr_skipWs _ _ _
        (skipWs_cons_ws '\n' _ (by decide))]
      rw [show ((7 * es.length + (f + 7)) + 6 : ℕ)
          = 7 * es.length + (f + 6) + 7 from by ring]
      exact ih e' (f + 6) rest (hsafe' e' (List.mem_cons_self _ _))
        (fun x hx => hsafe' x (List.mem_cons_of_mem _ hx))
    have hsk : skipWs (',' :: '\n'
        :: (jsonEntryChars e' ++ itemsTail es rest))
        = ',' :: '\n' :: (jsonEntryChars e' ++ itemsTail es rest) := rfl
    simp [hsk, hrec]

theorem jsonEntryChars_length (e : ProfileEntry) :
    21 ≤ (jsonEntryChars e).length := by
  simp only [jsonEntryChars, List.length_append, List.length_cons,
    List.length_nil]
  omega

theorem jsonItems_length : ∀ es : List ProfileEntry,
    21 * es.length ≤ (jsonItems es).length := by
  intro es
  induction es with
  | nil => simp [jsonItems]
  | cons e es ih =>
    cases es with
    | nil =>
      have := jsonEntryChars_length e
      simp only [jsonItems, List.length_append, List.length_cons,
        List.length_nil]
      omega
    | cons e2 es2 =>
      have := jsonEntryChars_length e
      rw [show jsonItems (e :: e2 :: es2)
          = jsonEntryChars e ++ ',' :: '\n' :: jsonItems (e2 :: es2)
        from rfl]
      simp only [List.length_append, List.length_cons] at *
      omega

/-- The `.json` output of a non-empty entry list with escape-free names
parses back as exactly the documented array of objects. -/
theorem parseJson_jsonText (es : List ProfileEntry) (hne : es ≠ [])
    (hsafe : ∀ x ∈ es, jsonSafe x.name = true) :
    parseJson (jsonText es) = some (JVal.jarr (es.map entryAst)) := by
  obtain ⟨e, es', rfl⟩ : ∃ a b, es = a :: b := by
    cases es with
    | nil => exact absurd rfl hne
    | cons a b => exact ⟨a, b, rfl⟩
  have hlen : 7 * es'.length + 7 ≤ (jsonChars (e :: es')).length := by
    have hB := jsonItems_length (e :: es')
    have hC : (jsonChars (e :: es')).length
        = (jsonItems (e :: es')).length + 4 := by
      simp only [jsonChars, List.length_cons, List.length_append,
        List.length_nil]
    simp only [List.length_cons] at hB
    omega
  have hskip2 : skipWs ('\n' :: (jsonItems (e :: es') ++ [']', '\n']))
      = '\x7b' :: (entryTail e ++ itemsTail es' ['\n']) := by
    rw [skipWs_cons_ws '\n' _ (by decide)]
    rw [show jsonItems (e :: es') ++ ([']', '\n'] : List Char)
        = jsonItems (e :: es') ++ ']' :: ['\n'] from rfl]
    rw [jsonItems_append ['\n'] e es']
    rw [jsonEntryChars_eq e]
    exact skipWs_braced (entryTail e) (itemsTail es' ['\n'])
  have helems : parseElems (jsonChars (e :: es')).length
      ('\x7b' :: (entryTail e ++ itemsTail es' ['\n']))
      = some (entryAst e :: es'.map entryAst, ['\n']) := by
    have hcongr : parseElems (jsonChars (e :: es')).length
        ('\x7b' :: (entryTail e ++ itemsTail es' ['\n']))
        = parseElems (jsonChars (e :: es')).length
          (jsonEntryChars e ++ itemsTail es' ['\n']) := by
      apply parseElems_congr_skipWs
      rw [jsonEntryChars_eq e, skipWs_braced]
      rfl
    rw [hcongr]
    rw [show (jsonChars (e :: es')).length
        = 7 * es'.length
          + ((jsonChars (e :: es')).length - 7 * es'.length - 7) + 7
      from by omega]
    exact parseElems_items es' e _ ['\n']
      (hsafe e (List.mem_cons_self _ _))
      (fun x hx => hsafe x (List.mem_cons_of_mem _ hx))
  have hval : parseVal ((jsonChars (e :: es')).length + 1)
      (jsonChars (e :: es'))
      = some (JVal.jarr (entryAst e :: es'.map entryAst), ['\n']) := by
    conv_lhs => rw [show jsonChars (e :: es')
      = '[' :: '\n' :: (jsonItems (e :: es') ++ [']', '\n']) from rfl]
    simp only [parseVal]
    rw [show skipWs ('[' :: '\n' :: (jsonItems (e :: es')
        ++ [']', '\n']))
      = '[' :: '\n' :: (jsonItems (e :: es') ++ [']', '\n']) from rfl]
    have hlen2 : (jsonItems (e :: es')).length + 2 + 1 + 1
        = (jsonChars (e :: es')).length := by
      simp only [jsonChars, List.length_cons, List.length_append,
        List.length_nil]
    simp [hskip2, hlen2, helems]
  show parseJson (String.mk (jsonChars (e :: es'))) = _
  simp only [parseJson]
  rw [hval]
  simp [skipWs, wsChar]

theorem fmt6_six_decimals (q : ℚ) :
    ∃ a b, (fmt6 q).data = a ++ '.' :: b ∧ b.length = 6
      ∧ ∀ c ∈ b, isDigitCh c = true := by
  refine ⟨(if q.num < 0 then ['-'] else [])
      ++ natChars ((2 * q.num.natAbs * 1000000 + q.den)
        / (2 * q.den) / 1000000),
    fracPad ((2 * q.num.natAbs * 1000000 + q.den)
      / (2 * q.den) % 1000000), ?_,
    fracPad_length _ (Nat.mod_lt _ (by norm_num)), fracPad_digits _⟩
  show fmt6Chars q = _
  simp [fmt6Chars, List.append_assoc]

theorem entryAst_keys (e : ProfileEntry) :
    objKeys (entryAst e)
      = ["name", "calls", "total_seconds"]
        ++ if 0 < e.total_bytes then ["total_bytes"] else [] := by
  by_cases hb : 0 < e.total_bytes <;> simp [entryAst, objKeys, hb]

/-- C6 (amended): for every non-empty entry list whose names contain no
characters that JSON strings require to be escaped (quote, backslash,
control characters — the writer streams names verbatim), dumping to a
path ending in `.json` writes the JSON serialization, and that text is
syntactically valid JSON: it parses (under the full ECMA-404 grammar
reader defined above) as the array of one object per entry, in order,
where each object has exactly the keys `name` (the entry's name as a
string), `calls` (a decimal integer token), `total_seconds` (a
fixed-point numeric token with exactly six digits after the decimal
point), and `total_bytes` exactly when the entry's `total_bytes` is
nonzero. -/
theorem claim_C6 (es : List ProfileEntry) (p : String)
    (hne : es ≠ []) (hsafe : ∀ e ∈ es, jsonSafe e.name = true) :
    (dump_profile es (p ++ ".json") true).written = some (jsonText es)
  ∧ parseJson (jsonText es) = some (JVal.jarr (es.map entryAst))
  ∧ (∀ e ∈ es, objKeys (entryAst e)
      = ["name", "calls", "total_seconds"]
        ++ if 0 < e.total_bytes then ["total_bytes"] else [])
  ∧ (∀ e ∈ es, ∃ a b, (fmt6 e.total_seconds).data = a ++ '.' :: b
      ∧ b.length = 6 ∧ ∀ c ∈ b, isDigitCh c = true)
  ∧ (∀ e ∈ es, ∀ c ∈ natChars e.calls, isDigitCh c = true) := by
  refine ⟨?_, parseJson_jsonText es hne hsafe,
    fun e _ => entryAst_keys e,
    fun e _ => fmt6_six_decimals e.total_seconds,
    fun e _ => natChars_digits e.calls⟩
  cases es with
  | nil => exact absurd rfl hne
  | cons a b =>
    have hj : is_json (p ++ ".json") = true :=
      (is_json_iff _).mpr ⟨p, rfl⟩
    simp [dump_profile, hj]

/-- Witness for the amended C6: a concrete dump of one entry to
`out.json`, with the hypotheses discharged by computation. -/
theorem claim_C6_witness :
    (dump_profile [⟨"region", 2, 0, 5⟩] ("out" ++ ".json") true).written
      = some (jsonText [⟨"region", 2, 0, 5⟩])
  ∧ parseJson (jsonText [⟨"region", 2, 0, 5⟩])
      = some (JVal.jarr ([⟨"region", 2, 0, 5⟩].map entryAst)) :=
  ⟨(claim_C6 [⟨"region", 2, 0, 5⟩] "out" (List.cons_ne_nil _ _)
      (by decide)).1,
   (claim_C6 [⟨"region", 2, 0, 5⟩] "out" (List.cons_ne_nil _ _)
      (by decide)).2.1⟩
